import Mathlib

/-!
Verification of the Biscuit pattern-matching index engine (src/src/biscuit.c).

Shallow embedding conventions:
* Byte strings are `List ℕ` (each element one byte value).
* Record ids are `ℕ` (the C code uses `uint32_t`; all ids stay far below 2^32
  because they are bounded by `num_records`, which only ever grows by 1).
* A roaring bitmap is modelled as `Finset ℕ`.  `add`/`remove`/`and`/`or`/
  `andnot` become `insert`/`erase`/`∩`/`∪`/`\`.
* A `CharIndex` (sorted array of `(pos, bitmap)` entries with binary-search
  lookup, `biscuit_get_pos_bitmap`/`biscuit_set_pos_bitmap`) is modelled as the
  finite map it implements: a function `ℤ → Option (Finset ℕ)`; a missing entry
  (binary search fails / NULL) is `none`, and set inserts-or-overwrites.
* `char_cache` / `length_bitmaps` slots that can be NULL pointers are
  `Option (Finset ℕ)`.  The `length_ge_bitmaps` slots are always created
  non-NULL for every index below the allocated bound, so they are plain
  `Finset ℕ` together with the bound `max_length_…`; "array pointer is NULL"
  coincides with `max_length_legacy = 0` for the case-sensitive arrays (they
  are allocated exactly when the bound is set to 32).  For the lowercase
  arrays the pointer-NULL state is tracked by `lower_len_alloc` because
  `biscuit_insert` bumps `max_length_lower` before allocating.
* Counters that the C code can drive negative (`tombstone_count`) are `ℤ`.
This file models the single-column ("legacy") engine, the configuration used
by `biscuit_query_pattern` / `biscuit_query_pattern_ilike`; the multi-column
insert path is embedded separately for the NULL-frame claim.
-/

namespace Biscuit

/-! ### UTF-8 helpers (biscuit_utf8_char_length / biscuit_utf8_char_count) -/

/-- UTF-8 character length from the leading byte (`biscuit_utf8_char_length`). -/
def biscuit_utf8_char_length (c : ℕ) : ℕ :=
  if c < 0x80 then 1
  else if c < 0xC0 then 1
  else if c < 0xE0 then 2
  else if c < 0xF0 then 3
  else if c < 0xF8 then 4
  else 1

/-- One step of the character-stepped scan shared by `biscuit_utf8_char_count`
and every indexing/matching loop: the number of bytes consumed for the
character starting at the head (clamped at the end of the buffer, as in
`if (pos + char_len > byte_len) char_len = byte_len - pos`). -/
def charStep (c : ℕ) (rest : List ℕ) : ℕ :=
  min (biscuit_utf8_char_length c) (rest.length + 1)

/-- Decompose a byte string into its character chunks, exactly as every
`while (byte_pos < byte_len)` loop in the source steps through it.  The fuel
argument makes the recursion structural (each step consumes at least one
byte, so `l.length` fuel always suffices). -/
def utf8ChunksF : ℕ → List ℕ → List (List ℕ)
  | 0, _ => []
  | _, [] => []
  | fuel + 1, c :: rest =>
      let n := charStep c rest
      (c :: rest).take n :: utf8ChunksF fuel ((c :: rest).drop n)

def utf8Chunks (l : List ℕ) : List (List ℕ) := utf8ChunksF l.length l

/-- `biscuit_utf8_char_count`: the number of character chunks. -/
def biscuit_utf8_char_count (l : List ℕ) : ℕ := (utf8Chunks l).length

/-- Modelled from the spec: `biscuit_str_tolower` delegates to the host
database lower() function (code outside this repository); the spec fixes the
fold to a deterministic locale-unaware simple lowercase, modelled here as
ASCII lowercasing of each byte. -/
def biscuit_str_tolower (l : List ℕ) : List ℕ :=
  l.map (fun b => if 65 ≤ b ∧ b ≤ 90 then b + 32 else b)

/-! ### The single-column index state -/

structure BiscuitIndex where
  num_records : ℕ
  tids : ℕ → ℕ
  data_cache : ℕ → Option (List ℕ)
  data_cache_lower : ℕ → Option (List ℕ)
  pos_idx_legacy : ℕ → ℤ → Option (Finset ℕ)
  neg_idx_legacy : ℕ → ℤ → Option (Finset ℕ)
  char_cache_legacy : ℕ → Option (Finset ℕ)
  length_bitmaps_legacy : ℕ → Option (Finset ℕ)
  length_ge_bitmaps_legacy : ℕ → Finset ℕ
  max_length_legacy : ℕ
  pos_idx_lower : ℕ → ℤ → Option (Finset ℕ)
  neg_idx_lower : ℕ → ℤ → Option (Finset ℕ)
  char_cache_lower : ℕ → Option (Finset ℕ)
  length_bitmaps_lower : ℕ → Option (Finset ℕ)
  length_ge_bitmaps_lower : ℕ → Finset ℕ
  max_length_lower : ℕ
  lower_len_alloc : Bool
  max_len : ℕ
  tombstones : Finset ℕ
  free_list : List ℕ
  tombstone_count : ℤ
  insert_count : ℤ
  update_count : ℤ
  delete_count : ℤ

/-- Fresh index (`biscuit_init_crud_structures` plus zeroed structures). -/
def biscuit_init : BiscuitIndex where
  num_records := 0
  tids := fun _ => 0
  data_cache := fun _ => none
  data_cache_lower := fun _ => none
  pos_idx_legacy := fun _ _ => none
  neg_idx_legacy := fun _ _ => none
  char_cache_legacy := fun _ => none
  length_bitmaps_legacy := fun _ => none
  length_ge_bitmaps_legacy := fun _ => ∅
  max_length_legacy := 0
  pos_idx_lower := fun _ _ => none
  neg_idx_lower := fun _ _ => none
  char_cache_lower := fun _ => none
  length_bitmaps_lower := fun _ => none
  length_ge_bitmaps_lower := fun _ => ∅
  max_length_lower := 0
  lower_len_alloc := false
  max_len := 0
  tombstones := ∅
  free_list := []
  tombstone_count := 0
  insert_count := 0
  update_count := 0
  delete_count := 0

/-! ### Bitmap accessors (biscuit_get/set_pos/neg_bitmap and lower twins) -/

def biscuit_get_pos_bitmap (s : BiscuitIndex) (ch : ℕ) (p : ℤ) : Option (Finset ℕ) :=
  s.pos_idx_legacy ch p

def biscuit_get_neg_bitmap (s : BiscuitIndex) (ch : ℕ) (p : ℤ) : Option (Finset ℕ) :=
  s.neg_idx_legacy ch p

def biscuit_set_pos_bitmap (s : BiscuitIndex) (ch : ℕ) (p : ℤ) (bm : Finset ℕ) : BiscuitIndex :=
  { s with pos_idx_legacy := fun c q =>
      if c = ch ∧ q = p then some bm else s.pos_idx_legacy c q }

def biscuit_set_neg_bitmap (s : BiscuitIndex) (ch : ℕ) (p : ℤ) (bm : Finset ℕ) : BiscuitIndex :=
  { s with neg_idx_legacy := fun c q =>
      if c = ch ∧ q = p then some bm else s.neg_idx_legacy c q }

def biscuit_get_pos_bitmap_lower (s : BiscuitIndex) (ch : ℕ) (p : ℤ) : Option (Finset ℕ) :=
  s.pos_idx_lower ch p

def biscuit_get_neg_bitmap_lower (s : BiscuitIndex) (ch : ℕ) (p : ℤ) : Option (Finset ℕ) :=
  s.neg_idx_lower ch p

def biscuit_set_pos_bitmap_lower (s : BiscuitIndex) (ch : ℕ) (p : ℤ) (bm : Finset ℕ) :
    BiscuitIndex :=
  { s with pos_idx_lower := fun c q =>
      if c = ch ∧ q = p then some bm else s.pos_idx_lower c q }

def biscuit_set_neg_bitmap_lower (s : BiscuitIndex) (ch : ℕ) (p : ℤ) (bm : Finset ℕ) :
    BiscuitIndex :=
  { s with neg_idx_lower := fun c q =>
      if c = ch ∧ q = p then some bm else s.neg_idx_lower c q }

/-- `biscuit_get_length_ge` (case-sensitive, legacy): out-of-bound lookups
return a fresh empty bitmap. -/
def biscuit_get_length_ge (s : BiscuitIndex) (min_len : ℕ) : Finset ℕ :=
  if s.max_length_legacy ≤ min_len then ∅ else s.length_ge_bitmaps_legacy min_len

/-- `biscuit_get_length_ge_lower`: additionally guards on the (possibly NULL)
lowercase array. -/
def biscuit_get_length_ge_lower (s : BiscuitIndex) (min_len : ℕ) : Finset ℕ :=
  if s.max_length_lower ≤ min_len then ∅
  else if s.lower_len_alloc = false then ∅
  else s.length_ge_bitmaps_lower min_len

/-! ### biscuit_remove_from_all_indices (single-column branch) -/

def biscuit_remove_from_all_indices (s : BiscuitIndex) (rec : ℕ) : BiscuitIndex :=
  { s with
    pos_idx_legacy := fun b p => (s.pos_idx_legacy b p).map (fun bm => bm.erase rec)
    neg_idx_legacy := fun b p => (s.neg_idx_legacy b p).map (fun bm => bm.erase rec)
    char_cache_legacy := fun b => (s.char_cache_legacy b).map (fun bm => bm.erase rec)
    pos_idx_lower := fun b p => (s.pos_idx_lower b p).map (fun bm => bm.erase rec)
    neg_idx_lower := fun b p => (s.neg_idx_lower b p).map (fun bm => bm.erase rec)
    char_cache_lower := fun b => (s.char_cache_lower b).map (fun bm => bm.erase rec)
    length_bitmaps_legacy := fun j =>
      if j < s.max_length_legacy then (s.length_bitmaps_legacy j).map (fun bm => bm.erase rec)
      else s.length_bitmaps_legacy j
    length_ge_bitmaps_legacy := fun j =>
      if j < s.max_length_legacy then (s.length_ge_bitmaps_legacy j).erase rec
      else s.length_ge_bitmaps_legacy j
    length_bitmaps_lower := fun j =>
      if s.lower_len_alloc = true ∧ j < s.max_length_lower then
        (s.length_bitmaps_lower j).map (fun bm => bm.erase rec)
      else s.length_bitmaps_lower j
    length_ge_bitmaps_lower := fun j =>
      if s.lower_len_alloc = true ∧ j < s.max_length_lower then
        (s.length_ge_bitmaps_lower j).erase rec
      else s.length_ge_bitmaps_lower j }

/-! ### The indexing loops of biscuit_insert (single-column) -/

/-- Index one byte of one character: add `rec` to `pos[b][cp]`, to
`neg[b][-(remaining chars)]` and to `char_cache[b]` (creating missing
bitmaps, as the `if (!bm) { bm = create; set }; add` idiom does). -/
def biscuit_index_char (s : BiscuitIndex) (rec b : ℕ) (cp : ℕ) (rem : ℕ) : BiscuitIndex :=
  let bm := (biscuit_get_pos_bitmap s b (cp : ℤ)).getD ∅
  let s := biscuit_set_pos_bitmap s b (cp : ℤ) (insert rec bm)
  let bmn := (biscuit_get_neg_bitmap s b (-(rem : ℤ))).getD ∅
  let s := biscuit_set_neg_bitmap s b (-(rem : ℤ)) (insert rec bmn)
  let cc := (s.char_cache_legacy b).getD ∅
  { s with char_cache_legacy := fun c =>
      if c = b then some (insert rec cc) else s.char_cache_legacy c }

/-- The case-sensitive indexing loop of `biscuit_insert`, walking the
character chunks of the value; `rem = ` number of characters from the current
one to the end (`biscuit_utf8_char_count(str + byte_pos, …)`). -/
def biscuit_index_string (rec : ℕ) : BiscuitIndex → List (List ℕ) → ℕ → BiscuitIndex
  | s, [], _ => s
  | s, chunk :: rest, cp =>
      let s := chunk.foldl (fun st b => biscuit_index_char st rec b cp (rest.length + 1)) s
      biscuit_index_string rec s rest (cp + 1)

def biscuit_index_char_lower (s : BiscuitIndex) (rec b : ℕ) (cp : ℕ) (rem : ℕ) : BiscuitIndex :=
  let bm := (biscuit_get_pos_bitmap_lower s b (cp : ℤ)).getD ∅
  let s := biscuit_set_pos_bitmap_lower s b (cp : ℤ) (insert rec bm)
  let bmn := (biscuit_get_neg_bitmap_lower s b (-(rem : ℤ))).getD ∅
  let s := biscuit_set_neg_bitmap_lower s b (-(rem : ℤ)) (insert rec bmn)
  let cc := (s.char_cache_lower b).getD ∅
  { s with char_cache_lower := fun c =>
      if c = b then some (insert rec cc) else s.char_cache_lower c }

def biscuit_index_string_lower (rec : ℕ) :
    BiscuitIndex → List (List ℕ) → ℕ → BiscuitIndex
  | s, [], _ => s
  | s, chunk :: rest, cp =>
      let s := chunk.foldl (fun st b => biscuit_index_char_lower st rec b cp (rest.length + 1)) s
      biscuit_index_string_lower rec s rest (cp + 1)

/-- Case-sensitive length-bitmap update of `biscuit_insert` (initial 32-slot
allocation, geometric growth, exact add, length-≥ adds for `i ∈ [0, L]`).
Array growth copies the old bitmaps and creates fresh empty `length_ge`
slots, which is a no-op on the total-function model. -/
def biscuit_update_lengths (s : BiscuitIndex) (rec : ℕ) (char_count : ℕ) : BiscuitIndex :=
  let s := if s.max_length_legacy = 0 then { s with max_length_legacy := 32 } else s
  let s := if s.max_length_legacy ≤ char_count then
             { s with max_length_legacy := (char_count + 1) * 2 } else s
  let s := if char_count < s.max_length_legacy then
      { s with length_bitmaps_legacy := fun j =>
          if j = char_count then
            some (insert rec ((s.length_bitmaps_legacy char_count).getD ∅))
          else s.length_bitmaps_legacy j }
    else s
  { s with length_ge_bitmaps_legacy := fun j =>
      if j ≤ char_count ∧ j < s.max_length_legacy then
        insert rec (s.length_ge_bitmaps_legacy j)
      else s.length_ge_bitmaps_legacy j }

def biscuit_update_lengths_lower (s : BiscuitIndex) (rec : ℕ) (lower_char_count : ℕ) :
    BiscuitIndex :=
  let s := if s.lower_len_alloc = false ∨ s.max_length_lower = 0 then
             { s with max_length_lower := 32, lower_len_alloc := true } else s
  let s := if s.max_length_lower ≤ lower_char_count then
             { s with max_length_lower := (lower_char_count + 1) * 2 } else s
  let s := if lower_char_count < s.max_length_lower then
      { s with length_bitmaps_lower := fun j =>
          if j = lower_char_count then
            some (insert rec ((s.length_bitmaps_lower lower_char_count).getD ∅))
          else s.length_bitmaps_lower j }
    else s
  { s with length_ge_bitmaps_lower := fun j =>
      if j ≤ lower_char_count ∧ j < s.max_length_lower then
        insert rec (s.length_ge_bitmaps_lower j)
      else s.length_ge_bitmaps_lower j }

/-- Store the TID of a slot (`ItemPointerCopy`). -/
def biscuit_store_tid (s : BiscuitIndex) (rid tid : ℕ) : BiscuitIndex :=
  { s with tids := fun r => if r = rid then tid else s.tids r }

/-- Cache the value of a slot (`data_cache[rec_idx] = pnstrdup`). -/
def biscuit_store_data (s : BiscuitIndex) (rid : ℕ) (str : List ℕ) : BiscuitIndex :=
  { s with data_cache := fun r => if r = rid then some str else s.data_cache r }

/-- Cache the folded value of a slot. -/
def biscuit_store_data_lower (s : BiscuitIndex) (rid : ℕ) (str_lower : List ℕ) :
    BiscuitIndex :=
  { s with data_cache_lower := fun r =>
      if r = rid then some str_lower else s.data_cache_lower r }

/-- `if (lower_char_count > idx->max_length_lower) max_length_lower = …`. -/
def biscuit_bump_max_lower (s : BiscuitIndex) (lower_char_count : ℕ) : BiscuitIndex :=
  if s.max_length_lower < lower_char_count then
    { s with max_length_lower := lower_char_count } else s

/-- The common tail of `biscuit_insert` once a slot `rid` has been chosen:
store TID and data, build the character indices (sensitive then folded),
update both length-bitmap families. -/
def biscuit_insert_store (s : BiscuitIndex) (rid : ℕ) (tid : ℕ) (str : List ℕ) :
    BiscuitIndex :=
  let s := biscuit_store_tid s rid tid
  let s := biscuit_store_data s rid str
  let s := biscuit_index_string rid s (utf8Chunks str) 0
  let str_lower := biscuit_str_tolower str
  let lower_char_count := biscuit_utf8_char_count str_lower
  let s := biscuit_store_data_lower s rid str_lower
  let s := biscuit_bump_max_lower s lower_char_count
  let s := biscuit_index_string_lower rid s (utf8Chunks str_lower) 0
  let s := biscuit_update_lengths s rid (biscuit_utf8_char_count str)
  biscuit_update_lengths_lower s rid lower_char_count

/-- TID scan of `biscuit_insert`: the first live slot holding this TID. -/
def biscuit_find_existing (s : BiscuitIndex) (tid : ℕ) : Option ℕ :=
  (List.range s.num_records).find? (fun r => s.tids r = tid)

/-- Free the cached strings of a slot being recycled. -/
def biscuit_clear_slot (s : BiscuitIndex) (rid : ℕ) : BiscuitIndex :=
  { s with
    data_cache := fun r => if r = rid then none else s.data_cache r
    data_cache_lower := fun r => if r = rid then none else s.data_cache_lower r }

/-- Unconditional tombstone removal of the free-slot reuse path (the count is
decremented even when the slot is not tombstoned). -/
def biscuit_untombstone (s : BiscuitIndex) (rid : ℕ) : BiscuitIndex :=
  { s with tombstones := s.tombstones.erase rid
           tombstone_count := s.tombstone_count - 1 }

/-- The guarded tombstone removal of the update path. -/
def biscuit_untombstone_checked (s : BiscuitIndex) (rid : ℕ) : BiscuitIndex :=
  if (0 : ℤ) < s.tombstone_count ∧ rid ∈ s.tombstones then biscuit_untombstone s rid
  else s

/-- `biscuit_insert`, single-column path.  `value = none` is the SQL NULL
case (`isnull[0]`), which returns success without touching the state. -/
def biscuit_insert (s : BiscuitIndex) (tid : ℕ) (value : Option (List ℕ)) :
    BiscuitIndex × Bool :=
  match value with
  | none => (s, true)
  | some str =>
      let char_count := biscuit_utf8_char_count str
      let s := if s.max_len < char_count then { s with max_len := char_count } else s
      match biscuit_find_existing s tid with
      | some rid =>
          -- UPDATE path: clean the slot, clear its tombstone, re-index
          let s := biscuit_remove_from_all_indices s rid
          let s := biscuit_clear_slot s rid
          let s := biscuit_untombstone_checked s rid
          let s := { s with update_count := s.update_count + 1 }
          (biscuit_insert_store s rid tid str, true)
      | none =>
          match s.free_list with
          | rid :: rest =>
              -- reuse a free slot (tombstone removal and count decrement are
              -- unconditional in the source)
              let s := { s with free_list := rest }
              let s := biscuit_remove_from_all_indices s rid
              let s := biscuit_clear_slot s rid
              let s := biscuit_untombstone s rid
              (biscuit_insert_store s rid tid str, true)
          | [] =>
              let rid := s.num_records
              let s := { s with num_records := s.num_records + 1 }
              let s := { s with insert_count := s.insert_count + 1 }
              (biscuit_insert_store s rid tid str, true)

/-! ### biscuit_bulkdelete (single-column branch) -/

/-- The marking pass: for every non-tombstoned slot with data whose TID the
callback selects, set the tombstone, push the slot on the free list and track
it in `records_to_delete`. -/
def biscuit_mark_deleted (cb : ℕ → Bool) (s : BiscuitIndex) : BiscuitIndex × Finset ℕ :=
  (List.range s.num_records).foldl
    (fun acc i =>
      if (acc.1.data_cache i).isSome ∧ i ∉ acc.1.tombstones ∧ cb (acc.1.tids i) then
        ({ acc.1 with
            tombstones := insert i acc.1.tombstones
            tombstone_count := acc.1.tombstone_count + 1
            free_list := i :: acc.1.free_list
            delete_count := acc.1.delete_count + 1 },
         insert i acc.2)
      else acc)
    (s, ∅)

/-- The cleanup pass: subtract the newly deleted records from every bitmap
and free their cached strings. -/
def biscuit_bulk_cleanup (s : BiscuitIndex) (del : Finset ℕ) : BiscuitIndex :=
  { s with
    pos_idx_legacy := fun b p => (s.pos_idx_legacy b p).map (fun bm => bm \ del)
    neg_idx_legacy := fun b p => (s.neg_idx_legacy b p).map (fun bm => bm \ del)
    char_cache_legacy := fun b => (s.char_cache_legacy b).map (fun bm => bm \ del)
    pos_idx_lower := fun b p => (s.pos_idx_lower b p).map (fun bm => bm \ del)
    neg_idx_lower := fun b p => (s.neg_idx_lower b p).map (fun bm => bm \ del)
    char_cache_lower := fun b => (s.char_cache_lower b).map (fun bm => bm \ del)
    length_bitmaps_legacy := fun j =>
      if j < s.max_length_legacy then (s.length_bitmaps_legacy j).map (fun bm => bm \ del)
      else s.length_bitmaps_legacy j
    length_ge_bitmaps_legacy := fun j =>
      if j < s.max_length_legacy then s.length_ge_bitmaps_legacy j \ del
      else s.length_ge_bitmaps_legacy j
    length_bitmaps_lower := fun j =>
      if j < s.max_length_lower then (s.length_bitmaps_lower j).map (fun bm => bm \ del)
      else s.length_bitmaps_lower j
    length_ge_bitmaps_lower := fun j =>
      if j < s.max_length_lower then s.length_ge_bitmaps_lower j \ del
      else s.length_ge_bitmaps_lower j
    data_cache := fun r => if r ∈ del then none else s.data_cache r
    data_cache_lower := fun r => if r ∈ del then none else s.data_cache_lower r }

/-- `TOMBSTONE_CLEANUP_THRESHOLD` -/
def TOMBSTONE_CLEANUP_THRESHOLD : ℤ := 1000

/-- `biscuit_bulkdelete`: mark, clean up the marked records, then reset the
tombstone bitmap (but not the free list) once the counter reaches the
threshold. -/
def biscuit_bulkdelete (s : BiscuitIndex) (cb : ℕ → Bool) : BiscuitIndex :=
  let ms := biscuit_mark_deleted cb s
  let s := if ms.2 = ∅ then ms.1 else biscuit_bulk_cleanup ms.1 ms.2
  if TOMBSTONE_CLEANUP_THRESHOLD ≤ s.tombstone_count then
    { s with tombstones := ∅, tombstone_count := 0 }
  else s

/-- Quiescent points reachable by any sequence of inserts and bulk deletes. -/
inductive Reachable : BiscuitIndex → Prop
  | init : Reachable biscuit_init
  | insert (s : BiscuitIndex) (tid : ℕ) (v : Option (List ℕ)) :
      Reachable s → Reachable (biscuit_insert s tid v).1
  | bulkdelete (s : BiscuitIndex) (cb : ℕ → Bool) :
      Reachable s → Reachable (biscuit_bulkdelete s cb)

/-! ### Pattern parsing (biscuit_parse_pattern)

The C loop emits every maximal nonempty run of non-`%` bytes, in order; this
is exactly splitting on the byte `%` (37) and dropping empty pieces.  The
stored `part_lens[i]` / `part_byte_lens[i]` are recomputed here as
`biscuit_utf8_char_count part` / `part.length` (the code stores exactly these
values). -/

structure ParsedPattern where
  parts : List (List ℕ)
  starts_percent : Bool
  ends_percent : Bool

def splitPartsAux : List ℕ → List ℕ → List (List ℕ)
  | [], acc => if acc = [] then [] else [acc.reverse]
  | c :: rest, acc =>
      if c = 37 then (if acc = [] then [] else [acc.reverse]) ++ splitPartsAux rest []
      else splitPartsAux rest (c :: acc)

def biscuit_parse_pattern (pattern : List ℕ) : ParsedPattern where
  parts := splitPartsAux pattern []
  starts_percent := pattern.head? = some 37
  ends_percent := pattern.getLast? = some 37

/-! ### Matching a segment at a fixed character position -/

/-- AND together the positional bitmaps of all bytes of one character
(`look b` is the bitmap lookup at the fixed position).  `none` means the C
loop returned an empty bitmap early: some byte had no bitmap, or an
intersection with the second or a later byte came out empty.  The first
byte's bitmap is copied without an emptiness check, as in the source. -/
def andBytesGo (look : ℕ → Option (Finset ℕ)) : List ℕ → Finset ℕ → Option (Finset ℕ)
  | [], acc => some acc
  | b :: r, acc =>
      match look b with
      | none => none
      | some bm =>
          let a2 := acc ∩ bm
          if a2 = ∅ then none else andBytesGo look r a2

def andBytes (look : ℕ → Option (Finset ℕ)) : List ℕ → Option (Finset ℕ)
  | [] => none
  | b :: r =>
      match look b with
      | none => none
      | some bm => andBytesGo look r bm

/-- The character loop of `biscuit_match_part_at_pos`, over the chunks of the
segment, with the current character position as second argument.  Result
`none`: the loop returned an empty bitmap early; `some none`: the loop
finished without meeting a concrete character (`result` still NULL);
`some (some a)`: finished with accumulated intersection `a`. -/
def matchPosLoop (look : ℕ → ℤ → Option (Finset ℕ)) :
    List (List ℕ) → ℤ → Option (Finset ℕ) → Option (Option (Finset ℕ))
  | [], _, acc => some acc
  | chunk :: rest, cp, acc =>
      if chunk = [95] then matchPosLoop look rest (cp + 1) acc
      else
        match andBytes (fun b => look b cp) chunk with
        | none => none
        | some bm =>
            match acc with
            | none => matchPosLoop look rest (cp + 1) (some bm)
            | some a =>
                let a2 := a ∩ bm
                if a2 = ∅ then none else matchPosLoop look rest (cp + 1) (some a2)

/-- The character loop of `biscuit_match_part_at_end`: the second argument is
`char_offset_from_end`, and each concrete character is looked up at negative
position `-(pattern_char_count - offset)`. -/
def matchEndLoop (look : ℕ → ℤ → Option (Finset ℕ)) (pcc : ℕ) :
    List (List ℕ) → ℕ → Option (Finset ℕ) → Option (Option (Finset ℕ))
  | [], _, acc => some acc
  | chunk :: rest, off, acc =>
      if chunk = [95] then matchEndLoop look pcc rest (off + 1) acc
      else
        match andBytes (fun b => look b (-((pcc : ℤ) - off))) chunk with
        | none => none
        | some bm =>
            match acc with
            | none => matchEndLoop look pcc rest (off + 1) (some bm)
            | some a =>
                let a2 := a ∩ bm
                if a2 = ∅ then none else matchEndLoop look pcc rest (off + 1) (some a2)

def biscuit_match_part_at_pos (s : BiscuitIndex) (part : List ℕ) (start_pos : ℕ) : Finset ℕ :=
  let pcc := biscuit_utf8_char_count part
  match matchPosLoop (biscuit_get_pos_bitmap s) (utf8Chunks part) (start_pos : ℤ) none with
  | none => ∅
  | some none => biscuit_get_length_ge s (start_pos + pcc)
  | some (some a) => a ∩ biscuit_get_length_ge s (start_pos + pcc)

def biscuit_match_part_at_end (s : BiscuitIndex) (part : List ℕ) : Finset ℕ :=
  let pcc := biscuit_utf8_char_count part
  match matchEndLoop (biscuit_get_neg_bitmap s) pcc (utf8Chunks part) 0 none with
  | none => ∅
  | some none => biscuit_get_length_ge s pcc
  | some (some a) => a ∩ biscuit_get_length_ge s pcc

def biscuit_match_part_at_pos_ilike (s : BiscuitIndex) (part : List ℕ) (start_pos : ℕ) :
    Finset ℕ :=
  let pcc := biscuit_utf8_char_count part
  match matchPosLoop (biscuit_get_pos_bitmap_lower s) (utf8Chunks part) (start_pos : ℤ) none with
  | none => ∅
  | some none => biscuit_get_length_ge_lower s (start_pos + pcc)
  | some (some a) => a ∩ biscuit_get_length_ge_lower s (start_pos + pcc)

def biscuit_match_part_at_end_ilike (s : BiscuitIndex) (part : List ℕ) : Finset ℕ :=
  let pcc := biscuit_utf8_char_count part
  match matchEndLoop (biscuit_get_neg_bitmap_lower s) pcc (utf8Chunks part) 0 none with
  | none => ∅
  | some none => biscuit_get_length_ge_lower s pcc
  | some (some a) => a ∩ biscuit_get_length_ge_lower s pcc

/-! ### Recursive windowed placement (biscuit_recursive_windowed_match) -/

/-- `biscuit_recursive_windowed_match` (case-sensitive), written with the
remaining segment list in place of `part_idx` and returning the union the C
code ORs into `result`.  The fuel argument makes the recursion structural;
each recursive call drops one segment, so `parts.length + 1` always
suffices.

In the end-anchored branch the source computes the minimum-length
constraint `length_ge(min_pos + part_char_count)` but intersects `end_match`
into that temporary and frees it (the `and_inplace` arguments are swapped
relative to the ILIKE twin), so the constraint has no effect; the model
reproduces this by binding and discarding it. -/
def biscuit_recursive_windowed_matchF (s : BiscuitIndex) (ends_percent : Bool)
    (max_len : ℕ) : ℕ → List (List ℕ) → ℕ → Finset ℕ → Finset ℕ
  | 0, _, _, _ => ∅
  | _ + 1, [], _, cand => cand
  | fuel + 1, part :: rest, min_pos, cand =>
      if rest = [] ∧ ends_percent = false then
        let em := biscuit_match_part_at_end s part ∩ cand
        let _length_constraint :=
          biscuit_get_length_ge s (min_pos + biscuit_utf8_char_count part)
        em
      else
        let cplen := biscuit_utf8_char_count part
        let remaining := (rest.map biscuit_utf8_char_count).sum
        let hi : ℤ := (max_len : ℤ) - cplen - remaining
        if hi < (min_pos : ℤ) then ∅
        else
          (List.range (hi - min_pos + 1).toNat).foldl
            (fun res i =>
              let pos := min_pos + i
              let pm := biscuit_match_part_at_pos s part pos
              let nextc := cand ∩ pm
              if nextc = ∅ then res
              else res ∪ biscuit_recursive_windowed_matchF s ends_percent max_len fuel
                      rest (pos + cplen) nextc)
            ∅

def biscuit_recursive_windowed_match (s : BiscuitIndex) (ends_percent : Bool)
    (max_len : ℕ) (parts : List (List ℕ)) (min_pos : ℕ) (cand : Finset ℕ) : Finset ℕ :=
  biscuit_recursive_windowed_matchF s ends_percent max_len (parts.length + 1)
    parts min_pos cand

/-- `biscuit_recursive_windowed_match_ilike`: identical, against the folded
structures, and with the end-anchored length constraint applied (here the
`and_inplace` goes into `end_match`). -/
def biscuit_recursive_windowed_match_ilikeF (s : BiscuitIndex) (ends_percent : Bool)
    (max_len : ℕ) : ℕ → List (List ℕ) → ℕ → Finset ℕ → Finset ℕ
  | 0, _, _, _ => ∅
  | _ + 1, [], _, cand => cand
  | fuel + 1, part :: rest, min_pos, cand =>
      if rest = [] ∧ ends_percent = false then
        let em := biscuit_match_part_at_end_ilike s part ∩ cand
        em ∩ biscuit_get_length_ge_lower s (min_pos + biscuit_utf8_char_count part)
      else
        let cplen := biscuit_utf8_char_count part
        let remaining := (rest.map biscuit_utf8_char_count).sum
        let hi : ℤ := (max_len : ℤ) - cplen - remaining
        if hi < (min_pos : ℤ) then ∅
        else
          (List.range (hi - min_pos + 1).toNat).foldl
            (fun res i =>
              let pos := min_pos + i
              let pm := biscuit_match_part_at_pos_ilike s part pos
              let nextc := cand ∩ pm
              if nextc = ∅ then res
              else res ∪ biscuit_recursive_windowed_match_ilikeF s ends_percent max_len
                      fuel rest (pos + cplen) nextc)
            ∅

def biscuit_recursive_windowed_match_ilike (s : BiscuitIndex) (ends_percent : Bool)
    (max_len : ℕ) (parts : List (List ℕ)) (min_pos : ℕ) (cand : Finset ℕ) : Finset ℕ :=
  biscuit_recursive_windowed_match_ilikeF s ends_percent max_len (parts.length + 1)
    parts min_pos cand

/-! ### The substring paths -/

/-- One position of the `%X%` positional loop in `biscuit_query_pattern`: the
same character loop, but a position where no concrete byte was matched is
skipped rather than turned into a length query. -/
def substringAtPos (s : BiscuitIndex) (chunks : List (List ℕ)) (total : ℕ) (sp : ℕ) :
    Finset ℕ :=
  match matchPosLoop (biscuit_get_pos_bitmap s) chunks (sp : ℤ) none with
  | none => ∅
  | some none => ∅
  | some (some a) => a ∩ biscuit_get_length_ge s (sp + total)

/-- The `%X%` branch of `biscuit_query_pattern`: OR the per-position matches
over every start position that leaves room given the longest indexed text. -/
def substringLike (s : BiscuitIndex) (part : List ℕ) : Finset ℕ :=
  let total := biscuit_utf8_char_count part
  let chunks := utf8Chunks part
  (List.range ((s.max_len : ℤ) - total + 1).toNat).foldl
    (fun res sp => res ∪ substringAtPos s chunks total sp) ∅

/-- The byte-stepping verification loop of the ILIKE `%X%` branch, expressed
over character chunks: a `_` chunk consumes one haystack character; a
concrete character requires equal `biscuit_utf8_char_length` of the leading
bytes, in-bounds bytes on both sides (the clamped-final-chunk case fails the
bounds check) and equal bytes.  The final `pattern_byte == part_byte_len`
check is the empty-pattern base case. -/
def verifyChunks : List (List ℕ) → List (List ℕ) → Bool
  | [], _ => true
  | _ :: _, [] => false
  | pc :: ps, hc :: hs =>
      if pc = [95] then verifyChunks ps hs
      else
        let pcl := biscuit_utf8_char_length (pc.headD 0)
        let hcl := biscuit_utf8_char_length (hc.headD 0)
        if pcl ≠ hcl then false
        else if pc.length < pcl ∨ hc.length < hcl then false
        else pc = hc && verifyChunks ps hs

/-- Slide the pattern across the haystack character by character
(`biscuit_utf8_char_to_byte_offset` aligning a character position to its byte
offset corresponds to dropping that many character chunks, and never fails
within the loop bound). -/
def substringVerify (part hay : List ℕ) : Bool :=
  let pchunks := utf8Chunks part
  let hchunks := utf8Chunks hay
  (List.range (hchunks.length + 1 - pchunks.length)).any
    (fun cp => verifyChunks pchunks (hchunks.drop cp))

/-- The candidate set of the ILIKE `%X%` branch: the byte cache of the first
concrete byte when that cache exists, otherwise every non-tombstoned slot. -/
def substringIlikeCandidates (s : BiscuitIndex) (part : List ℕ) : Finset ℕ :=
  match (part.dropWhile (fun b => b = 95)).head? with
  | none => Finset.range s.num_records \ s.tombstones
  | some b =>
      match s.char_cache_lower b with
      | some bm => bm
      | none => Finset.range s.num_records \ s.tombstones

/-- The ILIKE `%X%` branch: bitmap pre-filter, folded length filter, then
per-candidate character-aligned verification against the cached folded text. -/
def substringIlike (s : BiscuitIndex) (part : List ℕ) : Finset ℕ :=
  let cand := substringIlikeCandidates s part ∩
      biscuit_get_length_ge_lower s (biscuit_utf8_char_count part)
  cand.filter (fun rid =>
    rid < s.num_records ∧
      ((s.data_cache_lower rid).map (fun hay => substringVerify part hay)).getD false = true)

/-! ### biscuit_query_pattern (LIKE) -/

/-- The fast-path scan: `(percent_count, underscore_count, only_wildcards)`;
the counts are only consulted when `only_wildcards` holds, in which case they
are the number of `%` and `_` bytes. -/
def wildcardScan : List ℕ → ℕ × ℕ × Bool
  | [] => (0, 0, true)
  | c :: r =>
      if c = 37 then
        let t := wildcardScan r
        (t.1 + 1, t.2.1, t.2.2)
      else if c = 95 then
        let t := wildcardScan r
        (t.1, t.2.1 + 1, t.2.2)
      else (0, 0, false)

/-- All record slots below `num_records` that are not tombstoned (the fast
path for `%`, which probes the tombstone bitmap directly). -/
def allNonTombstoned (s : BiscuitIndex) : Finset ℕ :=
  Finset.range s.num_records \ s.tombstones

/-- The dispatch of `biscuit_query_pattern` after the fast paths. -/
def biscuit_query_pattern_slow (s : BiscuitIndex) (pattern : List ℕ) : Finset ℕ :=
  let parsed := biscuit_parse_pattern pattern
  if parsed.parts.length = 0 then allNonTombstoned s
  else
    let min_len := (parsed.parts.map biscuit_utf8_char_count).sum
    if parsed.parts.length = 1 then
      let part := parsed.parts.headD []
      if parsed.starts_percent = false ∧ parsed.ends_percent = false then
        let r := biscuit_match_part_at_pos s part 0
        if min_len < s.max_length_legacy ∧ (s.length_bitmaps_legacy min_len).isSome then
          r ∩ (s.length_bitmaps_legacy min_len).getD ∅
        else ∅
      else if parsed.starts_percent = false then biscuit_match_part_at_pos s part 0
      else if parsed.ends_percent = false then biscuit_match_part_at_end s part
      else substringLike s part
    else if parsed.parts.length = 2 ∧ parsed.starts_percent = false ∧
        parsed.ends_percent = false then
      let p1 := parsed.parts.headD []
      let p2 := (parsed.parts.drop 1).headD []
      (biscuit_match_part_at_pos s p1 0 ∩ biscuit_match_part_at_end s p2) ∩
        biscuit_get_length_ge s min_len
    else
      let cand := biscuit_get_length_ge s min_len
      if cand = ∅ then ∅
      else if parsed.starts_percent = false then
        let fpm := biscuit_match_part_at_pos s (parsed.parts.headD []) 0 ∩ cand
        if fpm = ∅ then ∅
        else biscuit_recursive_windowed_match s parsed.ends_percent s.max_len
               (parsed.parts.drop 1)
               (biscuit_utf8_char_count (parsed.parts.headD [])) fpm
      else biscuit_recursive_windowed_match s parsed.ends_percent s.max_len
             parsed.parts 0 cand

/-- `biscuit_query_pattern`: fast paths (which return without the final
tombstone subtraction), then the slow path with the `tombstone_count > 0`
guarded subtraction. -/
def biscuit_query_pattern (s : BiscuitIndex) (pattern : List ℕ) : Finset ℕ :=
  if pattern.length = 0 then
    if s.max_length_legacy ≠ 0 ∧ (s.length_bitmaps_legacy 0).isSome then
      (s.length_bitmaps_legacy 0).getD ∅
    else ∅
  else if pattern = [37] then allNonTombstoned s
  else
    let scan := wildcardScan pattern
    if scan.2.2 = true then
      if 0 < scan.1 then biscuit_get_length_ge s scan.2.1
      else if scan.2.1 < s.max_length_legacy ∧ (s.length_bitmaps_legacy scan.2.1).isSome then
        (s.length_bitmaps_legacy scan.2.1).getD ∅
      else ∅
    else
      let result := biscuit_query_pattern_slow s pattern
      if (0 : ℤ) < s.tombstone_count then result \ s.tombstones else result

/-! ### biscuit_query_pattern_ilike (ILIKE) -/

/-- The dispatch of `biscuit_query_pattern_ilike` after the fast paths, on
the already-folded pattern.  The exact branch consults the case-sensitive
`length_bitmaps_legacy`, and when that slot is NULL below the bound it skips
the exact-length filter entirely (there is no final `else` arm in the
source). -/
def biscuit_query_pattern_ilike_slow (s : BiscuitIndex) (pattern_lower : List ℕ) :
    Finset ℕ :=
  let parsed := biscuit_parse_pattern pattern_lower
  if parsed.parts.length = 0 then allNonTombstoned s
  else
    let min_len := (parsed.parts.map biscuit_utf8_char_count).sum
    if parsed.parts.length = 1 then
      let part := parsed.parts.headD []
      if parsed.starts_percent = false ∧ parsed.ends_percent = false then
        let r := biscuit_match_part_at_pos_ilike s part 0
        if min_len < s.max_length_legacy ∧ (s.length_bitmaps_legacy min_len).isSome then
          r ∩ (s.length_bitmaps_legacy min_len).getD ∅
        else if s.max_length_legacy ≤ min_len then ∅
        else r
      else if parsed.starts_percent = false then biscuit_match_part_at_pos_ilike s part 0
      else if parsed.ends_percent = false then biscuit_match_part_at_end_ilike s part
      else substringIlike s part
    else if parsed.parts.length = 2 ∧ parsed.starts_percent = false ∧
        parsed.ends_percent = false then
      let p1 := parsed.parts.headD []
      let p2 := (parsed.parts.drop 1).headD []
      (biscuit_match_part_at_pos_ilike s p1 0 ∩ biscuit_match_part_at_end_ilike s p2) ∩
        biscuit_get_length_ge_lower s min_len
    else
      let cand := biscuit_get_length_ge_lower s min_len
      if cand = ∅ then ∅
      else if parsed.starts_percent = false then
        let fpm := biscuit_match_part_at_pos_ilike s (parsed.parts.headD []) 0 ∩ cand
        if fpm = ∅ then ∅
        else biscuit_recursive_windowed_match_ilike s parsed.ends_percent s.max_len
               (parsed.parts.drop 1)
               (biscuit_utf8_char_count (parsed.parts.headD [])) fpm
      else biscuit_recursive_windowed_match_ilike s parsed.ends_percent s.max_len
             parsed.parts 0 cand

/-- `biscuit_query_pattern_ilike`: the pattern is lowercase-folded first;
the empty-pattern and underscore-only fast paths consult the case-sensitive
`length_bitmaps_legacy`, while the `%`-wildcard fast path consults the folded
length-≥ bitmaps. -/
def biscuit_query_pattern_ilike (s : BiscuitIndex) (pattern : List ℕ) : Finset ℕ :=
  let pattern_lower := biscuit_str_tolower pattern
  if pattern_lower.length = 0 then
    if s.max_length_legacy ≠ 0 ∧ (s.length_bitmaps_legacy 0).isSome then
      (s.length_bitmaps_legacy 0).getD ∅
    else ∅
  else if pattern_lower = [37] then allNonTombstoned s
  else
    let scan := wildcardScan pattern_lower
    if scan.2.2 = true then
      if 0 < scan.1 then biscuit_get_length_ge_lower s scan.2.1
      else if scan.2.1 < s.max_length_legacy ∧
          (s.length_bitmaps_legacy scan.2.1).isSome then
        (s.length_bitmaps_legacy scan.2.1).getD ∅
      else ∅
    else
      let result := biscuit_query_pattern_ilike_slow s pattern_lower
      if (0 : ℤ) < s.tombstone_count then result \ s.tombstones else result

/-! ### Spec-side definitions -/

/-- SQL-LIKE semantics of a pattern over characters, following the spec:
`%` matches zero or more characters, `_` exactly one, and a concrete
character matches itself; both pattern and text are read as character chunks.
Fuel-structural; every step consumes a pattern or text character, so
`|pattern| + |text| + 1` always suffices. -/
def sqlLikeF : ℕ → List (List ℕ) → List (List ℕ) → Bool
  | 0, _, _ => false
  | _ + 1, [], [] => true
  | _ + 1, [], _ :: _ => false
  | fuel + 1, pc :: ps, ts =>
      if pc = [37] then
        sqlLikeF fuel ps ts ||
          (match ts with
           | [] => false
           | _ :: tr => sqlLikeF fuel (pc :: ps) tr)
      else
        match ts with
        | [] => false
        | t :: tr =>
            if pc = [95] then sqlLikeF fuel ps tr
            else pc = t && sqlLikeF fuel ps tr

/-- The SQL-LIKE semantics of `pattern` applied to `text` (spec §8, item 5). -/
def sqlLikeMatches (pattern text : List ℕ) : Bool :=
  let pc := utf8Chunks pattern
  let tc := utf8Chunks text
  sqlLikeF (pc.length + tc.length + 1) pc tc

/-- The folded shadow view of the index, following the spec description of
ILIKE (`all CharPosBitmap/LengthBitmap lookups go against the folded shadow
index`): every folded structure is placed in the legacy slot consulted by the
LIKE control flow. -/
def foldedView (s : BiscuitIndex) : BiscuitIndex :=
  { s with
    pos_idx_legacy := s.pos_idx_lower
    neg_idx_legacy := s.neg_idx_lower
    char_cache_legacy := s.char_cache_lower
    length_bitmaps_legacy := s.length_bitmaps_lower
    length_ge_bitmaps_legacy :=
      if s.lower_len_alloc = true then s.length_ge_bitmaps_lower else fun _ => ∅
    max_length_legacy := s.max_length_lower
    data_cache := s.data_cache_lower }

/-- The spec reading of ILIKE: lowercase-fold the pattern, then run the LIKE
control flow with every lookup redirected to the folded shadow index. -/
def biscuit_query_pattern_ilike_spec (s : BiscuitIndex) (pattern : List ℕ) : Finset ℕ :=
  biscuit_query_pattern (foldedView s) (biscuit_str_tolower pattern)

/-! ### Query planner (analyze_pattern / calculate_selectivity /
assign_priority / compare_predicates)

The C selectivity computation is on `double`; it is modelled with exact
rationals (`0.05 = 1/20` and so on).  All values involved in the claims are
far from the rounding boundaries of the `(int)` cast. -/

/-- The NOT LIKE / NOT ILIKE transform: the full record-id range minus the
positive result bitmap. -/
def biscuit_not_transform (num_records : ℕ) (q : Finset ℕ) : Finset ℕ :=
  Finset.range num_records \ q

/-- The first-predicate pipeline of the rescan: strategy transform, then the
`tombstone_count > 0`-guarded tombstone subtraction. -/
def biscuit_first_predicate (s : BiscuitIndex) (is_not : Bool) (q : Finset ℕ) : Finset ℕ :=
  let c := if is_not = true then biscuit_not_transform s.num_records q else q
  if (0 : ℤ) < s.tombstone_count then c \ s.tombstones else c

/-! ### The multi-column insert (for the NULL frame property)

The per-column structures mirror `ColumnIndex`; the multi-column
`biscuit_insert` branch is translated below.  As in the single-column model,
`len_alloc` tracks the NULL-ness of the length arrays. -/

structure ColumnIndex where
  pos_idx : ℕ → ℤ → Option (Finset ℕ)
  neg_idx : ℕ → ℤ → Option (Finset ℕ)
  char_cache : ℕ → Option (Finset ℕ)
  length_bitmaps : ℕ → Option (Finset ℕ)
  length_ge_bitmaps : ℕ → Finset ℕ
  max_length : ℕ
  len_alloc : Bool
  pos_idx_lower : ℕ → ℤ → Option (Finset ℕ)
  neg_idx_lower : ℕ → ℤ → Option (Finset ℕ)
  char_cache_lower : ℕ → Option (Finset ℕ)
  length_bitmaps_lower : ℕ → Option (Finset ℕ)
  length_ge_bitmaps_lower : ℕ → Finset ℕ
  max_length_lower : ℕ
  len_alloc_lower : Bool

def emptyColumnIndex : ColumnIndex where
  pos_idx := fun _ _ => none
  neg_idx := fun _ _ => none
  char_cache := fun _ => none
  length_bitmaps := fun _ => none
  length_ge_bitmaps := fun _ => ∅
  max_length := 0
  len_alloc := false
  pos_idx_lower := fun _ _ => none
  neg_idx_lower := fun _ _ => none
  char_cache_lower := fun _ => none
  length_bitmaps_lower := fun _ => none
  length_ge_bitmaps_lower := fun _ => ∅
  max_length_lower := 0
  len_alloc_lower := false

structure BiscuitMultiIndex where
  num_columns : ℕ
  num_records : ℕ
  tids : ℕ → ℕ
  column_data_cache : ℕ → ℕ → Option (List ℕ)
  column_indices : ℕ → ColumnIndex
  tombstones : Finset ℕ
  free_list : List ℕ
  tombstone_count : ℤ
  max_len : ℕ
  insert_count : ℤ
  update_count : ℤ
  delete_count : ℤ

/-- An empty two-column index. -/
def biscuit_multi_init : BiscuitMultiIndex where
  num_columns := 2
  num_records := 0
  tids := fun _ => 0
  column_data_cache := fun _ _ => none
  column_indices := fun _ => emptyColumnIndex
  tombstones := ∅
  free_list := []
  tombstone_count := 0
  max_len := 0
  insert_count := 0
  update_count := 0
  delete_count := 0

/-- `biscuit_remove_from_all_indices`, multi-column branch. -/
def colRemoveRecord (c : ColumnIndex) (rid : ℕ) : ColumnIndex :=
  { c with
    pos_idx := fun b p => (c.pos_idx b p).map (fun bm => bm.erase rid)
    neg_idx := fun b p => (c.neg_idx b p).map (fun bm => bm.erase rid)
    char_cache := fun b => (c.char_cache b).map (fun bm => bm.erase rid)
    pos_idx_lower := fun b p => (c.pos_idx_lower b p).map (fun bm => bm.erase rid)
    neg_idx_lower := fun b p => (c.neg_idx_lower b p).map (fun bm => bm.erase rid)
    char_cache_lower := fun b => (c.char_cache_lower b).map (fun bm => bm.erase rid)
    length_bitmaps := fun j =>
      if c.len_alloc = true ∧ j < c.max_length then
        (c.length_bitmaps j).map (fun bm => bm.erase rid)
      else c.length_bitmaps j
    length_ge_bitmaps := fun j =>
      if c.len_alloc = true ∧ j < c.max_length then (c.length_ge_bitmaps j).erase rid
      else c.length_ge_bitmaps j
    length_bitmaps_lower := fun j =>
      if c.len_alloc_lower = true ∧ j < c.max_length_lower then
        (c.length_bitmaps_lower j).map (fun bm => bm.erase rid)
      else c.length_bitmaps_lower j
    length_ge_bitmaps_lower := fun j =>
      if c.len_alloc_lower = true ∧ j < c.max_length_lower then
        (c.length_ge_bitmaps_lower j).erase rid
      else c.length_ge_bitmaps_lower j }

def biscuit_remove_from_all_indices_multi (s : BiscuitMultiIndex) (rid : ℕ) :
    BiscuitMultiIndex :=
  { s with column_indices := fun col =>
      if col < s.num_columns then colRemoveRecord (s.column_indices col) rid
      else s.column_indices col }

/-- Index one byte of one character of one column (sensitive side). -/
def colIndexChar (c : ColumnIndex) (rid b cp rem : ℕ) : ColumnIndex :=
  let bm := (c.pos_idx b (cp : ℤ)).getD ∅
  let c := { c with pos_idx := fun b2 p2 =>
      if b2 = b ∧ p2 = (cp : ℤ) then some (insert rid bm) else c.pos_idx b2 p2 }
  let bmn := (c.neg_idx b (-(rem : ℤ))).getD ∅
  let c := { c with neg_idx := fun b2 p2 =>
      if b2 = b ∧ p2 = -(rem : ℤ) then some (insert rid bmn) else c.neg_idx b2 p2 }
  let cc := (c.char_cache b).getD ∅
  { c with char_cache := fun b2 => if b2 = b then some (insert rid cc) else c.char_cache b2 }

def colIndexString (rid : ℕ) : ColumnIndex → List (List ℕ) → ℕ → ColumnIndex
  | c, [], _ => c
  | c, chunk :: rest, cp =>
      let c := chunk.foldl (fun cst b => colIndexChar cst rid b cp (rest.length + 1)) c
      colIndexString rid c rest (cp + 1)

def colIndexCharLower (c : ColumnIndex) (rid b cp rem : ℕ) : ColumnIndex :=
  let bm := (c.pos_idx_lower b (cp : ℤ)).getD ∅
  let c := { c with pos_idx_lower := fun b2 p2 =>
      if b2 = b ∧ p2 = (cp : ℤ) then some (insert rid bm) else c.pos_idx_lower b2 p2 }
  let bmn := (c.neg_idx_lower b (-(rem : ℤ))).getD ∅
  let c := { c with neg_idx_lower := fun b2 p2 =>
      if b2 = b ∧ p2 = -(rem : ℤ) then some (insert rid bmn) else c.neg_idx_lower b2 p2 }
  let cc := (c.char_cache_lower b).getD ∅
  { c with char_cache_lower := fun b2 =>
      if b2 = b then some (insert rid cc) else c.char_cache_lower b2 }

def colIndexStringLower (rid : ℕ) : ColumnIndex → List (List ℕ) → ℕ → ColumnIndex
  | c, [], _ => c
  | c, chunk :: rest, cp =>
      let c := chunk.foldl (fun cst b => colIndexCharLower cst rid b cp (rest.length + 1)) c
      colIndexStringLower rid c rest (cp + 1)

/-- The multi-column length update (growth condition
`!length_bitmaps || char_count >= max_length`; the bound was already bumped
to the character count beforehand). -/
def colUpdateLengths (c : ColumnIndex) (rid cc : ℕ) : ColumnIndex :=
  let c := if c.len_alloc = false ∨ c.max_length ≤ cc then
      { c with max_length := (cc + 1) * 2, len_alloc := true }
    else c
  let c := { c with length_bitmaps := fun j =>
      if j = cc then some (insert rid ((c.length_bitmaps cc).getD ∅))
      else c.length_bitmaps j }
  { c with length_ge_bitmaps := fun j =>
      if j ≤ cc ∧ j < c.max_length then insert rid (c.length_ge_bitmaps j)
      else c.length_ge_bitmaps j }

def colUpdateLengthsLower (c : ColumnIndex) (rid lcc : ℕ) : ColumnIndex :=
  let c := if c.len_alloc_lower = false ∨ c.max_length_lower ≤ lcc then
      { c with max_length_lower := (lcc + 1) * 2, len_alloc_lower := true }
    else c
  let c := { c with length_bitmaps_lower := fun j =>
      if j = lcc then some (insert rid ((c.length_bitmaps_lower lcc).getD ∅))
      else c.length_bitmaps_lower j }
  { c with length_ge_bitmaps_lower := fun j =>
      if j ≤ lcc ∧ j < c.max_length_lower then insert rid (c.length_ge_bitmaps_lower j)
      else c.length_ge_bitmaps_lower j }

/-- Process one column of a multi-column insert: cache the text, bump the
length bounds, build both character indices, update both length families. -/
def biscuit_process_column (s : BiscuitMultiIndex) (col rid : ℕ) (text : List ℕ) :
    BiscuitMultiIndex :=
  let cc := biscuit_utf8_char_count text
  let s := { s with column_data_cache := fun c2 r2 =>
      if c2 = col ∧ r2 = rid then some text else s.column_data_cache c2 r2 }
  let updCol := fun (s : BiscuitMultiIndex) (f : ColumnIndex → ColumnIndex) =>
    { s with column_indices := fun c2 =>
        if c2 = col then f (s.column_indices c2) else s.column_indices c2 }
  let s := updCol s (fun c => if c.max_length < cc then { c with max_length := cc } else c)
  let s := if s.max_len < cc then { s with max_len := cc } else s
  let s := updCol s (fun c => colIndexString rid c (utf8Chunks text) 0)
  let text_lower := biscuit_str_tolower text
  let lcc := biscuit_utf8_char_count text_lower
  let s := updCol s (fun c =>
      if c.max_length_lower < lcc then { c with max_length_lower := lcc } else c)
  let s := updCol s (fun c => colIndexStringLower rid c (utf8Chunks text_lower) 0)
  let s := updCol s (fun c => colUpdateLengths c rid cc)
  updCol s (fun c => colUpdateLengthsLower c rid lcc)

def biscuit_find_existing_multi (s : BiscuitMultiIndex) (tid : ℕ) : Option ℕ :=
  (List.range s.num_records).find? (fun r => s.tids r = tid)

/-- The common tail of the multi-column insert: store the TID and process
every column in order. -/
def biscuit_insert_multi_store (s : BiscuitMultiIndex) (rid tid : ℕ)
    (values : List (Option (List ℕ))) : BiscuitMultiIndex :=
  let s := { s with tids := fun r => if r = rid then tid else s.tids r }
  (List.range s.num_columns).foldl
    (fun st col => biscuit_process_column st col rid ((values.getD col none).getD [])) s

/-- `biscuit_insert`, multi-column branch: a NULL in the first column (line
5431) or in any column (the loop at lines 5442-5447) returns success before
any state is touched. -/
def biscuit_insert_multicolumn (s : BiscuitMultiIndex) (tid : ℕ)
    (values : List (Option (List ℕ))) : BiscuitMultiIndex × Bool :=
  if (values.headD none).isNone = true then (s, true)
  else if values.any (fun v => v.isNone) = true then (s, true)
  else
    match biscuit_find_existing_multi s tid with
    | some rid =>
        let s := biscuit_remove_from_all_indices_multi s rid
        let s := { s with column_data_cache := fun c2 r2 =>
            if r2 = rid ∧ c2 < s.num_columns then none else s.column_data_cache c2 r2 }
        let s := if (0 : ℤ) < s.tombstone_count ∧ rid ∈ s.tombstones then
            { s with tombstones := s.tombstones.erase rid
                     tombstone_count := s.tombstone_count - 1 }
          else s
        let s := { s with update_count := s.update_count + 1 }
        (biscuit_insert_multi_store s rid tid values, true)
    | none =>
        match s.free_list with
        | rid :: rest =>
            let s := { s with free_list := rest }
            let s := biscuit_remove_from_all_indices_multi s rid
            let s := { s with column_data_cache := fun c2 r2 =>
                if r2 = rid ∧ c2 < s.num_columns then none else s.column_data_cache c2 r2 }
            let s := { s with tombstones := s.tombstones.erase rid
                              tombstone_count := s.tombstone_count - 1 }
            (biscuit_insert_multi_store s rid tid values, true)
        | [] =>
            let rid := s.num_records
            let s := { s with num_records := s.num_records + 1 }
            let s := { s with insert_count := s.insert_count + 1 }
            (biscuit_insert_multi_store s rid tid values, true)

/-! ### Concrete states for the counterexamples -/

/-- `"xabc"` inserted into a fresh index (record 0). -/
def idxXabc : BiscuitIndex := (biscuit_insert biscuit_init 10 (some [120, 97, 98, 99])).1

/-- …then `"aaaaaa"` (record 1, raising the maximum text length to 6). -/
def idxXabcA6 : BiscuitIndex := (biscuit_insert idxXabc 11 (some [97, 97, 97, 97, 97, 97])).1

/-- Insert `"a"` with TID 1 into a fresh index. -/
def idxA : BiscuitIndex := (biscuit_insert biscuit_init 1 (some [97])).1

/-- …bulk-delete everything (slot 0 tombstoned and pushed on the free list). -/
def idxADeleted : BiscuitIndex := biscuit_bulkdelete idxA (fun _ => true)

/-- …then insert `"b"` with the same TID 1 (the update path). -/
def idxAReinserted : BiscuitIndex := (biscuit_insert idxADeleted 1 (some [98])).1

/-- `"abc"` inserted into a fresh index (record 0). -/
def idxAbc : BiscuitIndex := (biscuit_insert biscuit_init 5 (some [97, 98, 99])).1

/-- Bulk-delete everything again after the TID-1 update: the marking pass
pushes slot 0 on the free list a second time (`free_list = [0, 0]`). -/
def idxD4 : BiscuitIndex := biscuit_bulkdelete idxAReinserted (fun _ => true)

/-- …insert `"c"` under TID 2: the first duplicate free-list entry is popped
and its tombstone cleared (`tombstone_count` back to 0). -/
def idxD5 : BiscuitIndex := (biscuit_insert idxD4 2 (some [99])).1

/-- …insert `"d"` under TID 3: the second duplicate entry is popped although
slot 0 is live and not tombstoned, and the unconditional decrement drives
`tombstone_count` to -1. -/
def idxD6 : BiscuitIndex := (biscuit_insert idxD5 3 (some [100])).1

/-- …bulk-delete everything once more: slot 0 is tombstoned and the counter
rises from -1 to 0, leaving a state with a nonempty tombstone bitmap and a
zero tombstone counter. -/
def idxDesync : BiscuitIndex := biscuit_bulkdelete idxD6 (fun _ => true)

/-! ### Invariants of the state machine -/

/-- The record slot an insert writes to: the slot already holding the TID,
else the top of the free list, else a fresh id. -/
def biscuit_insert_slot (s : BiscuitIndex) (tid : ℕ) : ℕ :=
  match biscuit_find_existing s tid with
  | some rid => rid
  | none =>
      match s.free_list with
      | rid :: _ => rid
      | [] => s.num_records

/-- The key positional invariant (spec §3): every record with cached text `T`
of character length `L` is in `pos[b][p]` and in `neg[b][p - L]` for every
byte `b` of its `p`-th character. -/
def PosInvariant (s : BiscuitIndex) : Prop :=
  ∀ rid T, s.data_cache rid = some T →
    ∀ p, p < biscuit_utf8_char_count T →
      ∀ b, b ∈ (utf8Chunks T).getD p [] →
        rid ∈ (s.pos_idx_legacy b (p : ℤ)).getD ∅ ∧
        rid ∈ (s.neg_idx_legacy b ((p : ℤ) - (biscuit_utf8_char_count T : ℤ))).getD ∅

/-- The length-index invariant: slots at or beyond the allocated bound are
empty, and every length-≥ lookup is the union of the exact bitmaps above it. -/
def LenInvariant (s : BiscuitIndex) : Prop :=
  (∀ j, s.max_length_legacy ≤ j → (s.length_bitmaps_legacy j).getD ∅ = ∅) ∧
  (∀ j, s.max_length_legacy ≤ j → s.length_ge_bitmaps_legacy j = ∅) ∧
  (∀ k r, r ∈ biscuit_get_length_ge s k ↔
      ∃ j, k ≤ j ∧ r ∈ (s.length_bitmaps_legacy j).getD ∅)

/-- Every bitmap only holds allocated record ids. -/
def MemBound (s : BiscuitIndex) : Prop :=
  (∀ b z, (s.pos_idx_legacy b z).getD ∅ ⊆ Finset.range s.num_records) ∧
  (∀ b z, (s.neg_idx_legacy b z).getD ∅ ⊆ Finset.range s.num_records) ∧
  (∀ j, (s.length_bitmaps_legacy j).getD ∅ ⊆ Finset.range s.num_records) ∧
  (∀ j, s.length_ge_bitmaps_legacy j ⊆ Finset.range s.num_records)

/-- Free-list entries are allocated slots. -/
def FreeBound (s : BiscuitIndex) : Prop :=
  ∀ r ∈ s.free_list, r < s.num_records

def MachineInv (s : BiscuitIndex) : Prop :=
  PosInvariant s ∧ LenInvariant s ∧ MemBound s ∧ FreeBound s


/-- The precondition under which `biscuit_insert_store` preserves the machine
invariant: the invariant itself, an allocated slot, and the slot's absence
from every bitmap it is about to be added to. -/
def StorePre (s : BiscuitIndex) (rid : ℕ) : Prop :=
  MachineInv s ∧ rid < s.num_records ∧
  (∀ c q, rid ∉ (s.pos_idx_legacy c q).getD ∅) ∧
  (∀ c q, rid ∉ (s.neg_idx_legacy c q).getD ∅) ∧
  (∀ j, rid ∉ (s.length_bitmaps_legacy j).getD ∅) ∧
  (∀ j, rid ∉ s.length_ge_bitmaps_legacy j)

/-- What the marking pass of `biscuit_bulkdelete` leaves untouched, together
with where its free-list pushes come from. -/
def MarkFrame (s : BiscuitIndex) (acc : BiscuitIndex × Finset ℕ) : Prop :=
  acc.1.data_cache = s.data_cache ∧
  acc.1.pos_idx_legacy = s.pos_idx_legacy ∧
  acc.1.neg_idx_legacy = s.neg_idx_legacy ∧
  acc.1.length_bitmaps_legacy = s.length_bitmaps_legacy ∧
  acc.1.length_ge_bitmaps_legacy = s.length_ge_bitmaps_legacy ∧
  acc.1.max_length_legacy = s.max_length_legacy ∧
  acc.1.num_records = s.num_records ∧
  acc.1.tids = s.tids ∧
  (∀ r ∈ acc.1.free_list, r ∈ s.free_list ∨ r < s.num_records)

end Biscuit

/-! ## Verification

Characterization lemmas for the indexing loops and the machine invariant,
followed by the per-claim theorems. -/

namespace Biscuit

theorem indexChar_pos (s : BiscuitIndex) (rid b cp rem : ℕ) (c : ℕ) (q : ℤ) :
    (biscuit_index_char s rid b cp rem).pos_idx_legacy c q =
      if c = b ∧ q = (cp : ℤ) then some (insert rid ((s.pos_idx_legacy b (cp : ℤ)).getD ∅))
      else s.pos_idx_legacy c q := rfl

theorem indexChar_neg (s : BiscuitIndex) (rid b cp rem : ℕ) (c : ℕ) (q : ℤ) :
    (biscuit_index_char s rid b cp rem).neg_idx_legacy c q =
      if c = b ∧ q = -(rem : ℤ) then
        some (insert rid ((s.neg_idx_legacy b (-(rem : ℤ))).getD ∅))
      else s.neg_idx_legacy c q := rfl

theorem indexChar_frame (s : BiscuitIndex) (rid b cp rem : ℕ) :
    (biscuit_index_char s rid b cp rem).data_cache = s.data_cache ∧
    (biscuit_index_char s rid b cp rem).length_bitmaps_legacy = s.length_bitmaps_legacy ∧
    (biscuit_index_char s rid b cp rem).length_ge_bitmaps_legacy = s.length_ge_bitmaps_legacy ∧
    (biscuit_index_char s rid b cp rem).max_length_legacy = s.max_length_legacy ∧
    (biscuit_index_char s rid b cp rem).num_records = s.num_records ∧
    (biscuit_index_char s rid b cp rem).free_list = s.free_list ∧
    (biscuit_index_char s rid b cp rem).tombstones = s.tombstones ∧
    (biscuit_index_char s rid b cp rem).tids = s.tids :=
  ⟨rfl, rfl, rfl, rfl, rfl, rfl, rfl, rfl⟩

theorem indexBytes_spec (rid cp rem : ℕ) :
    ∀ (bytes : List ℕ) (s : BiscuitIndex),
      (∀ c q x,
        x ∈ (((bytes.foldl (fun st b => biscuit_index_char st rid b cp rem) s)).pos_idx_legacy
            c q).getD ∅ ↔
          (x ∈ (s.pos_idx_legacy c q).getD ∅ ∨ (x = rid ∧ c ∈ bytes ∧ q = (cp : ℤ)))) ∧
      (∀ c q x,
        x ∈ (((bytes.foldl (fun st b => biscuit_index_char st rid b cp rem) s)).neg_idx_legacy
            c q).getD ∅ ↔
          (x ∈ (s.neg_idx_legacy c q).getD ∅ ∨ (x = rid ∧ c ∈ bytes ∧ q = -(rem : ℤ)))) ∧
      (bytes.foldl (fun st b => biscuit_index_char st rid b cp rem) s).data_cache =
        s.data_cache ∧
      (bytes.foldl (fun st b => biscuit_index_char st rid b cp rem) s).length_bitmaps_legacy =
        s.length_bitmaps_legacy ∧
      (bytes.foldl (fun st b => biscuit_index_char st rid b cp rem) s).length_ge_bitmaps_legacy =
        s.length_ge_bitmaps_legacy ∧
      (bytes.foldl (fun st b => biscuit_index_char st rid b cp rem) s).max_length_legacy =
        s.max_length_legacy ∧
      (bytes.foldl (fun st b => biscuit_index_char st rid b cp rem) s).num_records =
        s.num_records ∧
      (bytes.foldl (fun st b => biscuit_index_char st rid b cp rem) s).free_list =
        s.free_list ∧
      (bytes.foldl (fun st b => biscuit_index_char st rid b cp rem) s).tombstones =
        s.tombstones ∧
      (bytes.foldl (fun st b => biscuit_index_char st rid b cp rem) s).tids = s.tids := by
  intro bytes
  induction bytes with
  | nil => intro s; simp
  | cons b bs ih =>
      intro s
      have hstep := ih (biscuit_index_char s rid b cp rem)
      refine ⟨?_, ?_, ?_, ?_, ?_, ?_, ?_, ?_, ?_, ?_⟩
      · intro c q x
        rw [List.foldl_cons, hstep.1 c q x, indexChar_pos]
        by_cases hc : c = b ∧ q = (cp : ℤ)
        · obtain ⟨hcb, hcq⟩ := hc
          subst hcb
          subst hcq
          rw [if_pos ⟨rfl, rfl⟩]
          simp only [Option.getD_some, Finset.mem_insert, List.mem_cons]
          tauto
        · rw [if_neg hc]
          constructor
          · rintro (hx | hx)
            · exact Or.inl hx
            · exact Or.inr ⟨hx.1, List.mem_cons_of_mem _ hx.2.1, hx.2.2⟩
          · rintro (hx | ⟨hx, hmem, hq⟩)
            · exact Or.inl hx
            · rcases List.mem_cons.mp hmem with hb | hb
              · exact absurd ⟨hb, hq⟩ hc
              · exact Or.inr ⟨hx, hb, hq⟩
      · intro c q x
        rw [List.foldl_cons, hstep.2.1 c q x, indexChar_neg]
        by_cases hc : c = b ∧ q = -(rem : ℤ)
        · obtain ⟨hcb, hcq⟩ := hc
          subst hcb
          subst hcq
          rw [if_pos ⟨rfl, rfl⟩]
          simp only [Option.getD_some, Finset.mem_insert, List.mem_cons]
          tauto
        · rw [if_neg hc]
          constructor
          · rintro (hx | hx)
            · exact Or.inl hx
            · exact Or.inr ⟨hx.1, List.mem_cons_of_mem _ hx.2.1, hx.2.2⟩
          · rintro (hx | ⟨hx, hmem, hq⟩)
            · exact Or.inl hx
            · rcases List.mem_cons.mp hmem with hb | hb
              · exact absurd ⟨hb, hq⟩ hc
              · exact Or.inr ⟨hx, hb, hq⟩
      · rw [List.foldl_cons, hstep.2.2.1, (indexChar_frame s rid b cp rem).1]
      · rw [List.foldl_cons, hstep.2.2.2.1, (indexChar_frame s rid b cp rem).2.1]
      · rw [List.foldl_cons, hstep.2.2.2.2.1, (indexChar_frame s rid b cp rem).2.2.1]
      · rw [List.foldl_cons, hstep.2.2.2.2.2.1, (indexChar_frame s rid b cp rem).2.2.2.1]
      · rw [List.foldl_cons, hstep.2.2.2.2.2.2.1, (indexChar_frame s rid b cp rem).2.2.2.2.1]
      · rw [List.foldl_cons, hstep.2.2.2.2.2.2.2.1,
          (indexChar_frame s rid b cp rem).2.2.2.2.2.1]
      · rw [List.foldl_cons, hstep.2.2.2.2.2.2.2.2.1,
          (indexChar_frame s rid b cp rem).2.2.2.2.2.2.1]
      · rw [List.foldl_cons, hstep.2.2.2.2.2.2.2.2.2,
          (indexChar_frame s rid b cp rem).2.2.2.2.2.2.2]

theorem indexString_spec (rid : ℕ) :
    ∀ (chunks : List (List ℕ)) (s : BiscuitIndex) (cp : ℕ),
      (∀ c q x,
        x ∈ ((biscuit_index_string rid s chunks cp).pos_idx_legacy c q).getD ∅ ↔
          (x ∈ (s.pos_idx_legacy c q).getD ∅ ∨
            (x = rid ∧ ∃ p, p < chunks.length ∧ c ∈ chunks.getD p [] ∧
              q = ((cp + p : ℕ) : ℤ)))) ∧
      (∀ c q x,
        x ∈ ((biscuit_index_string rid s chunks cp).neg_idx_legacy c q).getD ∅ ↔
          (x ∈ (s.neg_idx_legacy c q).getD ∅ ∨
            (x = rid ∧ ∃ p, p < chunks.length ∧ c ∈ chunks.getD p [] ∧
              q = -((chunks.length - p : ℕ) : ℤ)))) ∧
      (biscuit_index_string rid s chunks cp).data_cache = s.data_cache ∧
      (biscuit_index_string rid s chunks cp).length_bitmaps_legacy =
        s.length_bitmaps_legacy ∧
      (biscuit_index_string rid s chunks cp).length_ge_bitmaps_legacy =
        s.length_ge_bitmaps_legacy ∧
      (biscuit_index_string rid s chunks cp).max_length_legacy = s.max_length_legacy ∧
      (biscuit_index_string rid s chunks cp).num_records = s.num_records ∧
      (biscuit_index_string rid s chunks cp).free_list = s.free_list ∧
      (biscuit_index_string rid s chunks cp).tombstones = s.tombstones ∧
      (biscuit_index_string rid s chunks cp).tids = s.tids := by
  intro chunks
  induction chunks with
  | nil =>
      intro s cp
      simp [biscuit_index_string]
  | cons chunk rest ih =>
      intro s cp
      set s1 := chunk.foldl
        (fun st b => biscuit_index_char st rid b cp (rest.length + 1)) s with hs1
      have hbytes := indexBytes_spec rid cp (rest.length + 1) chunk s
      have hrec := ih s1 (cp + 1)
      have hunfold : biscuit_index_string rid s (chunk :: rest) cp =
          biscuit_index_string rid s1 rest (cp + 1) := rfl
      rw [hunfold]
      refine ⟨?_, ?_, ?_, ?_, ?_, ?_, ?_, ?_, ?_, ?_⟩
      · intro c q x
        rw [hrec.1 c q x, hbytes.1 c q x]
        constructor
        · rintro ((hx | ⟨hx, hmem, hq⟩) | ⟨hx, p, hp, hmem, hq⟩)
          · exact Or.inl hx
          · exact Or.inr ⟨hx, 0, by simp, by simpa using hmem, by simpa using hq⟩
          · refine Or.inr ⟨hx, p + 1, by simpa using hp, by simpa using hmem, ?_⟩
            rw [hq]
            omega
        · rintro (hx | ⟨hx, p, hp, hmem, hq⟩)
          · exact Or.inl (Or.inl hx)
          · rcases p with _ | p
            · exact Or.inl (Or.inr ⟨hx, by simpa using hmem, by simpa using hq⟩)
            · refine Or.inr ⟨hx, p, by simpa using hp, by simpa using hmem, ?_⟩
              rw [hq]
              omega
      · intro c q x
        rw [hrec.2.1 c q x, hbytes.2.1 c q x]
        constructor
        · rintro ((hx | ⟨hx, hmem, hq⟩) | ⟨hx, p, hp, hmem, hq⟩)
          · exact Or.inl hx
          · refine Or.inr ⟨hx, 0, by simp, by simpa using hmem, ?_⟩
            rw [hq]
            simp only [List.length_cons]
            omega
          · refine Or.inr ⟨hx, p + 1, by simpa using hp, by simpa using hmem, ?_⟩
            rw [hq]
            simp only [List.length_cons]
            omega
        · rintro (hx | ⟨hx, p, hp, hmem, hq⟩)
          · exact Or.inl (Or.inl hx)
          · rcases p with _ | p
            · refine Or.inl (Or.inr ⟨hx, by simpa using hmem, ?_⟩)
              rw [hq]
              simp only [List.length_cons]
              omega
            · refine Or.inr ⟨hx, p, by simpa using hp, by simpa using hmem, ?_⟩
              rw [hq]
              simp only [List.length_cons]
              omega
      · rw [hrec.2.2.1, hbytes.2.2.1]
      · rw [hrec.2.2.2.1, hbytes.2.2.2.1]
      · rw [hrec.2.2.2.2.1, hbytes.2.2.2.2.1]
      · rw [hrec.2.2.2.2.2.1, hbytes.2.2.2.2.2.1]
      · rw [hrec.2.2.2.2.2.2.1, hbytes.2.2.2.2.2.2.1]
      · rw [hrec.2.2.2.2.2.2.2.1, hbytes.2.2.2.2.2.2.2.1]
      · rw [hrec.2.2.2.2.2.2.2.2.1, hbytes.2.2.2.2.2.2.2.2.1]
      · rw [hrec.2.2.2.2.2.2.2.2.2, hbytes.2.2.2.2.2.2.2.2.2]

theorem indexCharLower_frame (s : BiscuitIndex) (rid b cp rem : ℕ) :
    (biscuit_index_char_lower s rid b cp rem).pos_idx_legacy = s.pos_idx_legacy ∧
    (biscuit_index_char_lower s rid b cp rem).neg_idx_legacy = s.neg_idx_legacy ∧
    (biscuit_index_char_lower s rid b cp rem).data_cache = s.data_cache ∧
    (biscuit_index_char_lower s rid b cp rem).length_bitmaps_legacy =
      s.length_bitmaps_legacy ∧
    (biscuit_index_char_lower s rid b cp rem).length_ge_bitmaps_legacy =
      s.length_ge_bitmaps_legacy ∧
    (biscuit_index_char_lower s rid b cp rem).max_length_legacy = s.max_length_legacy ∧
    (biscuit_index_char_lower s rid b cp rem).num_records = s.num_records ∧
    (biscuit_index_char_lower s rid b cp rem).free_list = s.free_list ∧
    (biscuit_index_char_lower s rid b cp rem).tombstones = s.tombstones ∧
    (biscuit_index_char_lower s rid b cp rem).tids = s.tids :=
  ⟨rfl, rfl, rfl, rfl, rfl, rfl, rfl, rfl, rfl, rfl⟩

theorem indexBytesLower_frame (rid cp rem : ℕ) :
    ∀ (bytes : List ℕ) (s : BiscuitIndex),
      (bytes.foldl (fun st b => biscuit_index_char_lower st rid b cp rem) s).pos_idx_legacy =
        s.pos_idx_legacy ∧
      (bytes.foldl (fun st b => biscuit_index_char_lower st rid b cp rem) s).neg_idx_legacy =
        s.neg_idx_legacy ∧
      (bytes.foldl (fun st b => biscuit_index_char_lower st rid b cp rem) s).data_cache =
        s.data_cache ∧
      (bytes.foldl (fun st b =>
          biscuit_index_char_lower st rid b cp rem) s).length_bitmaps_legacy =
        s.length_bitmaps_legacy ∧
      (bytes.foldl (fun st b =>
          biscuit_index_char_lower st rid b cp rem) s).length_ge_bitmaps_legacy =
        s.length_ge_bitmaps_legacy ∧
      (bytes.foldl (fun st b =>
          biscuit_index_char_lower st rid b cp rem) s).max_length_legacy =
        s.max_length_legacy ∧
      (bytes.foldl (fun st b => biscuit_index_char_lower st rid b cp rem) s).num_records =
        s.num_records ∧
      (bytes.foldl (fun st b => biscuit_index_char_lower st rid b cp rem) s).free_list =
        s.free_list ∧
      (bytes.foldl (fun st b => biscuit_index_char_lower st rid b cp rem) s).tombstones =
        s.tombstones ∧
      (bytes.foldl (fun st b => biscuit_index_char_lower st rid b cp rem) s).tids =
        s.tids := by
  intro bytes
  induction bytes with
  | nil => intro s; exact ⟨rfl, rfl, rfl, rfl, rfl, rfl, rfl, rfl, rfl, rfl⟩
  | cons b bs ih =>
      intro s
      have h1 := indexCharLower_frame s rid b cp rem
      have h2 := ih (biscuit_index_char_lower s rid b cp rem)
      rw [List.foldl_cons]
      exact ⟨h2.1.trans h1.1, h2.2.1.trans h1.2.1, h2.2.2.1.trans h1.2.2.1,
        h2.2.2.2.1.trans h1.2.2.2.1, h2.2.2.2.2.1.trans h1.2.2.2.2.1,
        h2.2.2.2.2.2.1.trans h1.2.2.2.2.2.1, h2.2.2.2.2.2.2.1.trans h1.2.2.2.2.2.2.1,
        h2.2.2.2.2.2.2.2.1.trans h1.2.2.2.2.2.2.2.1,
        h2.2.2.2.2.2.2.2.2.1.trans h1.2.2.2.2.2.2.2.2.1,
        h2.2.2.2.2.2.2.2.2.2.trans h1.2.2.2.2.2.2.2.2.2⟩

theorem indexStringLower_frame (rid : ℕ) :
    ∀ (chunks : List (List ℕ)) (s : BiscuitIndex) (cp : ℕ),
      (biscuit_index_string_lower rid s chunks cp).pos_idx_legacy = s.pos_idx_legacy ∧
      (biscuit_index_string_lower rid s chunks cp).neg_idx_legacy = s.neg_idx_legacy ∧
      (biscuit_index_string_lower rid s chunks cp).data_cache = s.data_cache ∧
      (biscuit_index_string_lower rid s chunks cp).length_bitmaps_legacy =
        s.length_bitmaps_legacy ∧
      (biscuit_index_string_lower rid s chunks cp).length_ge_bitmaps_legacy =
        s.length_ge_bitmaps_legacy ∧
      (biscuit_index_string_lower rid s chunks cp).max_length_legacy =
        s.max_length_legacy ∧
      (biscuit_index_string_lower rid s chunks cp).num_records = s.num_records ∧
      (biscuit_index_string_lower rid s chunks cp).free_list = s.free_list ∧
      (biscuit_index_string_lower rid s chunks cp).tombstones = s.tombstones ∧
      (biscuit_index_string_lower rid s chunks cp).tids = s.tids := by
  intro chunks
  induction chunks with
  | nil =>
      intro s cp
      exact ⟨rfl, rfl, rfl, rfl, rfl, rfl, rfl, rfl, rfl, rfl⟩
  | cons chunk rest ih =>
      intro s cp
      have h1 := indexBytesLower_frame rid cp (rest.length + 1) chunk s
      have h2 := ih (chunk.foldl
        (fun st b => biscuit_index_char_lower st rid b cp (rest.length + 1)) s) (cp + 1)
      have hunfold : biscuit_index_string_lower rid s (chunk :: rest) cp =
          biscuit_index_string_lower rid
            (chunk.foldl (fun st b => biscuit_index_char_lower st rid b cp
              (rest.length + 1)) s) rest (cp + 1) := rfl
      rw [hunfold]
      exact ⟨h2.1.trans h1.1, h2.2.1.trans h1.2.1, h2.2.2.1.trans h1.2.2.1,
        h2.2.2.2.1.trans h1.2.2.2.1, h2.2.2.2.2.1.trans h1.2.2.2.2.1,
        h2.2.2.2.2.2.1.trans h1.2.2.2.2.2.1, h2.2.2.2.2.2.2.1.trans h1.2.2.2.2.2.2.1,
        h2.2.2.2.2.2.2.2.1.trans h1.2.2.2.2.2.2.2.1,
        h2.2.2.2.2.2.2.2.2.1.trans h1.2.2.2.2.2.2.2.2.1,
        h2.2.2.2.2.2.2.2.2.2.trans h1.2.2.2.2.2.2.2.2.2⟩

theorem updateLengthsLower_frame (s : BiscuitIndex) (rid lcc : ℕ) :
    (biscuit_update_lengths_lower s rid lcc).pos_idx_legacy = s.pos_idx_legacy ∧
    (biscuit_update_lengths_lower s rid lcc).neg_idx_legacy = s.neg_idx_legacy ∧
    (biscuit_update_lengths_lower s rid lcc).data_cache = s.data_cache ∧
    (biscuit_update_lengths_lower s rid lcc).length_bitmaps_legacy =
      s.length_bitmaps_legacy ∧
    (biscuit_update_lengths_lower s rid lcc).length_ge_bitmaps_legacy =
      s.length_ge_bitmaps_legacy ∧
    (biscuit_update_lengths_lower s rid lcc).max_length_legacy = s.max_length_legacy ∧
    (biscuit_update_lengths_lower s rid lcc).num_records = s.num_records ∧
    (biscuit_update_lengths_lower s rid lcc).free_list = s.free_list ∧
    (biscuit_update_lengths_lower s rid lcc).tombstones = s.tombstones ∧
    (biscuit_update_lengths_lower s rid lcc).tids = s.tids := by
  unfold biscuit_update_lengths_lower
  dsimp only
  split_ifs <;> exact ⟨rfl, rfl, rfl, rfl, rfl, rfl, rfl, rfl, rfl, rfl⟩

theorem updateLengths_max (s : BiscuitIndex) (rid L : ℕ) :
    s.max_length_legacy ≤ (biscuit_update_lengths s rid L).max_length_legacy ∧
    L < (biscuit_update_lengths s rid L).max_length_legacy := by
  unfold biscuit_update_lengths
  dsimp only
  split_ifs <;> (try dsimp only at *) <;> (constructor <;> omega)

theorem updateLengths_ex (s : BiscuitIndex) (rid L : ℕ) (j : ℕ) :
    (biscuit_update_lengths s rid L).length_bitmaps_legacy j =
      if j = L then some (insert rid ((s.length_bitmaps_legacy L).getD ∅))
      else s.length_bitmaps_legacy j := by
  unfold biscuit_update_lengths
  dsimp only
  split_ifs <;> (try dsimp only at *) <;>
    first | rfl | (exfalso; omega) | simp_all

theorem updateLengths_ge (s : BiscuitIndex) (rid L : ℕ) (j : ℕ) :
    (biscuit_update_lengths s rid L).length_ge_bitmaps_legacy j =
      if j ≤ L ∧ j < (biscuit_update_lengths s rid L).max_length_legacy then
        insert rid (s.length_ge_bitmaps_legacy j)
      else s.length_ge_bitmaps_legacy j := by
  unfold biscuit_update_lengths
  dsimp only
  split_ifs <;> (try dsimp only at *) <;>
    first | rfl | (exfalso; omega) | simp_all

theorem updateLengths_frame (s : BiscuitIndex) (rid L : ℕ) :
    (biscuit_update_lengths s rid L).pos_idx_legacy = s.pos_idx_legacy ∧
    (biscuit_update_lengths s rid L).neg_idx_legacy = s.neg_idx_legacy ∧
    (biscuit_update_lengths s rid L).data_cache = s.data_cache ∧
    (biscuit_update_lengths s rid L).num_records = s.num_records ∧
    (biscuit_update_lengths s rid L).free_list = s.free_list ∧
    (biscuit_update_lengths s rid L).tombstones = s.tombstones ∧
    (biscuit_update_lengths s rid L).tids = s.tids := by
  unfold biscuit_update_lengths
  dsimp only
  split_ifs <;> exact ⟨rfl, rfl, rfl, rfl, rfl, rfl, rfl⟩

theorem bumpMaxLower_frame (s : BiscuitIndex) (lcc : ℕ) :
    (biscuit_bump_max_lower s lcc).pos_idx_legacy = s.pos_idx_legacy ∧
    (biscuit_bump_max_lower s lcc).neg_idx_legacy = s.neg_idx_legacy ∧
    (biscuit_bump_max_lower s lcc).data_cache = s.data_cache ∧
    (biscuit_bump_max_lower s lcc).length_bitmaps_legacy = s.length_bitmaps_legacy ∧
    (biscuit_bump_max_lower s lcc).length_ge_bitmaps_legacy = s.length_ge_bitmaps_legacy ∧
    (biscuit_bump_max_lower s lcc).max_length_legacy = s.max_length_legacy ∧
    (biscuit_bump_max_lower s lcc).num_records = s.num_records ∧
    (biscuit_bump_max_lower s lcc).free_list = s.free_list ∧
    (biscuit_bump_max_lower s lcc).tombstones = s.tombstones ∧
    (biscuit_bump_max_lower s lcc).tids = s.tids := by
  unfold biscuit_bump_max_lower
  split_ifs <;> exact ⟨rfl, rfl, rfl, rfl, rfl, rfl, rfl, rfl, rfl, rfl⟩

theorem insertStore_spec (s : BiscuitIndex) (rid tid : ℕ) (str : List ℕ) :
    (∀ r, (biscuit_insert_store s rid tid str).data_cache r =
        if r = rid then some str else s.data_cache r) ∧
    (∀ c q x, x ∈ ((biscuit_insert_store s rid tid str).pos_idx_legacy c q).getD ∅ ↔
        (x ∈ (s.pos_idx_legacy c q).getD ∅ ∨
          (x = rid ∧ ∃ p, p < biscuit_utf8_char_count str ∧
            c ∈ (utf8Chunks str).getD p [] ∧ q = ((0 + p : ℕ) : ℤ)))) ∧
    (∀ c q x, x ∈ ((biscuit_insert_store s rid tid str).neg_idx_legacy c q).getD ∅ ↔
        (x ∈ (s.neg_idx_legacy c q).getD ∅ ∨
          (x = rid ∧ ∃ p, p < biscuit_utf8_char_count str ∧
            c ∈ (utf8Chunks str).getD p [] ∧
            q = -((biscuit_utf8_char_count str - p : ℕ) : ℤ)))) ∧
    (∀ j, (biscuit_insert_store s rid tid str).length_bitmaps_legacy j =
        if j = biscuit_utf8_char_count str then
          some (insert rid
            ((s.length_bitmaps_legacy (biscuit_utf8_char_count str)).getD ∅))
        else s.length_bitmaps_legacy j) ∧
    (∀ j, (biscuit_insert_store s rid tid str).length_ge_bitmaps_legacy j =
        if j ≤ biscuit_utf8_char_count str ∧
            j < (biscuit_insert_store s rid tid str).max_length_legacy then
          insert rid (s.length_ge_bitmaps_legacy j)
        else s.length_ge_bitmaps_legacy j) ∧
    (s.max_length_legacy ≤ (biscuit_insert_store s rid tid str).max_length_legacy ∧
      biscuit_utf8_char_count str <
        (biscuit_insert_store s rid tid str).max_length_legacy) ∧
    (biscuit_insert_store s rid tid str).num_records = s.num_records ∧
    (biscuit_insert_store s rid tid str).free_list = s.free_list ∧
    (biscuit_insert_store s rid tid str).tombstones = s.tombstones := by
  have hunfold : biscuit_insert_store s rid tid str =
      biscuit_update_lengths_lower
        (biscuit_update_lengths
          (biscuit_index_string_lower rid
            (biscuit_bump_max_lower
              (biscuit_store_data_lower
                (biscuit_index_string rid
                  (biscuit_store_data (biscuit_store_tid s rid tid) rid str)
                  (utf8Chunks str) 0)
                rid (biscuit_str_tolower str))
              (biscuit_utf8_char_count (biscuit_str_tolower str)))
            (utf8Chunks (biscuit_str_tolower str)) 0)
          rid (biscuit_utf8_char_count str))
        rid (biscuit_utf8_char_count (biscuit_str_tolower str)) := rfl
  set s2 := biscuit_store_data (biscuit_store_tid s rid tid) rid str with hs2
  set chunks := utf8Chunks str with hchunks
  set s3 := biscuit_index_string rid s2 chunks 0 with hs3
  set sl := biscuit_str_tolower str with hsl
  set lcc := biscuit_utf8_char_count sl with hlcc
  set s5 := biscuit_bump_max_lower (biscuit_store_data_lower s3 rid sl) lcc with hs5
  set s6 := biscuit_index_string_lower rid s5 (utf8Chunks sl) 0 with hs6
  set L := biscuit_utf8_char_count str with hL
  set s7 := biscuit_update_lengths s6 rid L with hs7
  have hstr := indexString_spec rid chunks s2 0
  have hlow := indexStringLower_frame rid (utf8Chunks sl) s5 0
  have hbump := bumpMaxLower_frame (biscuit_store_data_lower s3 rid sl) lcc
  have hul_ex := fun j => updateLengths_ex s6 rid L j
  have hul_ge := fun j => updateLengths_ge s6 rid L j
  have hul_max := updateLengths_max s6 rid L
  have hul_frame := updateLengths_frame s6 rid L
  have hull := updateLengthsLower_frame s7 rid lcc
  -- field chains down to s
  have hpos6 : s6.pos_idx_legacy = s3.pos_idx_legacy := by
    rw [hlow.1, hbump.1]; rfl
  have hneg6 : s6.neg_idx_legacy = s3.neg_idx_legacy := by
    rw [hlow.2.1, hbump.2.1]; rfl
  have hdata6 : s6.data_cache = s3.data_cache := by
    rw [hlow.2.2.1, hbump.2.2.1]; rfl
  have hex6 : s6.length_bitmaps_legacy = s3.length_bitmaps_legacy := by
    rw [hlow.2.2.2.1, hbump.2.2.2.1]; rfl
  have hge6 : s6.length_ge_bitmaps_legacy = s3.length_ge_bitmaps_legacy := by
    rw [hlow.2.2.2.2.1, hbump.2.2.2.2.1]; rfl
  have hmax6 : s6.max_length_legacy = s3.max_length_legacy := by
    rw [hlow.2.2.2.2.2.1, hbump.2.2.2.2.2.1]; rfl
  have hnum6 : s6.num_records = s3.num_records := by
    rw [hlow.2.2.2.2.2.2.1, hbump.2.2.2.2.2.2.1]; rfl
  have hfree6 : s6.free_list = s3.free_list := by
    rw [hlow.2.2.2.2.2.2.2.1, hbump.2.2.2.2.2.2.2.1]; rfl
  have htomb6 : s6.tombstones = s3.tombstones := by
    rw [hlow.2.2.2.2.2.2.2.2.1, hbump.2.2.2.2.2.2.2.2.1]; rfl
  have htfin_ex : ∀ j, (biscuit_insert_store s rid tid str).length_bitmaps_legacy j =
      s7.length_bitmaps_legacy j := by
    intro j
    rw [hunfold]
    rw [hull.2.2.2.1]
  have htfin_max : (biscuit_insert_store s rid tid str).max_length_legacy =
      s7.max_length_legacy := by
    rw [hunfold, hull.2.2.2.2.2.1]
  refine ⟨?_, ?_, ?_, ?_, ?_, ⟨?_, ?_⟩, ?_, ?_, ?_⟩
  · intro r
    rw [hunfold, hull.2.2.1, hul_frame.2.2.1, hdata6]
    rw [hstr.2.2.1]
    rfl
  · intro c q x
    rw [hunfold, hull.1, hul_frame.1, hpos6]
    exact hstr.1 c q x
  · intro c q x
    rw [hunfold, hull.2.1, hul_frame.2.1, hneg6]
    exact hstr.2.1 c q x
  · intro j
    rw [htfin_ex j, hul_ex j, hex6, hstr.2.2.2.1]
    rfl
  · intro j
    rw [hunfold, hull.2.2.2.2.1, hul_ge j, hge6, hstr.2.2.2.2.1]
    rw [← hunfold, htfin_max]
    rfl
  · rw [htfin_max]
    calc s.max_length_legacy = s6.max_length_legacy := by
          rw [hmax6, hstr.2.2.2.2.2.1]; rfl
      _ ≤ s7.max_length_legacy := hul_max.1
  · rw [htfin_max]
    exact hul_max.2
  · rw [hunfold, hull.2.2.2.2.2.2.1, hul_frame.2.2.2.1, hnum6, hstr.2.2.2.2.2.2.1]
    rfl
  · rw [hunfold, hull.2.2.2.2.2.2.2.1, hul_frame.2.2.2.2.1, hfree6,
      hstr.2.2.2.2.2.2.2.1]
    rfl
  · rw [hunfold, hull.2.2.2.2.2.2.2.2.1, hul_frame.2.2.2.2.2.1, htomb6,
      hstr.2.2.2.2.2.2.2.2.1]
    rfl

theorem store_preserves_inv (s : BiscuitIndex) (rid tid : ℕ) (str : List ℕ)
    (hPos : PosInvariant s) (hLen : LenInvariant s) (hMem : MemBound s)
    (hFree : FreeBound s) (hrid : rid < s.num_records)
    (habs_pos : ∀ c q, rid ∉ (s.pos_idx_legacy c q).getD ∅)
    (habs_neg : ∀ c q, rid ∉ (s.neg_idx_legacy c q).getD ∅)
    (habs_ex : ∀ j, rid ∉ (s.length_bitmaps_legacy j).getD ∅)
    (habs_ge : ∀ j, rid ∉ s.length_ge_bitmaps_legacy j) :
    MachineInv (biscuit_insert_store s rid tid str) := by
  obtain ⟨hspec_data, hspec_pos, hspec_neg, hspec_ex, hspec_ge, ⟨hmax_mono, hmax_L⟩,
    hnum, hfree, htomb⟩ := insertStore_spec s rid tid str
  set t := biscuit_insert_store s rid tid str with ht
  set L := biscuit_utf8_char_count str with hL
  have hex_getD : ∀ j, (t.length_bitmaps_legacy j).getD ∅ =
      if j = L then insert rid ((s.length_bitmaps_legacy L).getD ∅)
      else (s.length_bitmaps_legacy j).getD ∅ := by
    intro j
    rw [hspec_ex j]
    by_cases hj : j = L
    · rw [if_pos hj, if_pos hj]
      rfl
    · rw [if_neg hj, if_neg hj]
  have hnew1 : ∀ j, t.max_length_legacy ≤ j → (t.length_bitmaps_legacy j).getD ∅ = ∅ := by
    intro j hj
    rw [hex_getD j, if_neg (by omega)]
    exact hLen.1 j (by omega)
  have hnew2 : ∀ j, t.max_length_legacy ≤ j → t.length_ge_bitmaps_legacy j = ∅ := by
    intro j hj
    rw [hspec_ge j, if_neg (by simp; omega)]
    exact hLen.2.1 j (by omega)
  refine ⟨?_, ⟨hnew1, hnew2, ?_⟩, ⟨?_, ?_, ?_, ?_⟩, ?_⟩
  · -- PosInvariant
    intro r T hdata p hp b hb
    rw [hspec_data r] at hdata
    by_cases hr : r = rid
    · rw [if_pos hr] at hdata
      obtain rfl : str = T := by injection hdata
      subst hr
      constructor
      · exact (hspec_pos b (p : ℤ) r).mpr (Or.inr ⟨rfl, p, hp, hb, by omega⟩)
      · exact (hspec_neg b _ r).mpr (Or.inr ⟨rfl, p, hp, hb, by omega⟩)
    · rw [if_neg hr] at hdata
      obtain ⟨h1, h2⟩ := hPos r T hdata p hp b hb
      exact ⟨(hspec_pos b _ r).mpr (Or.inl h1), (hspec_neg b _ r).mpr (Or.inl h2)⟩
  · -- LenInvariant lookup characterization
    intro k r
    unfold biscuit_get_length_ge
    by_cases hk : t.max_length_legacy ≤ k
    · rw [if_pos hk]
      simp only [Finset.not_mem_empty, false_iff, not_exists, not_and]
      intro j hj
      rw [hnew1 j (by omega)]
      exact Finset.not_mem_empty r
    · rw [if_neg hk]
      rw [hspec_ge k]
      by_cases hkL : k ≤ L
      · rw [if_pos ⟨hkL, by omega⟩]
        simp only [Finset.mem_insert]
        constructor
        · rintro (rfl | hr)
          · exact ⟨L, hkL, by rw [hex_getD L, if_pos rfl]; exact Finset.mem_insert_self _ _⟩
          · -- r in old ge k
            by_cases hks : s.max_length_legacy ≤ k
            · rw [hLen.2.1 k hks] at hr
              exact absurd hr (Finset.not_mem_empty r)
            · have hold := (hLen.2.2 k r).mp
                (by rw [biscuit_get_length_ge, if_neg (by omega)]; exact hr)
              obtain ⟨j, hj, hmem⟩ := hold
              refine ⟨j, hj, ?_⟩
              rw [hex_getD j]
              by_cases hjL : j = L
              · rw [if_pos hjL]
                subst hjL
                exact Finset.mem_insert_of_mem hmem
              · rw [if_neg hjL]
                exact hmem
        · rintro ⟨j, hj, hmem⟩
          rw [hex_getD j] at hmem
          by_cases hjL : j = L
          · rw [if_pos hjL] at hmem
            rcases Finset.mem_insert.mp hmem with rfl | hmem2
            · exact Or.inl rfl
            · refine Or.inr ?_
              rw [hjL] at hj
              by_cases hLs : s.max_length_legacy ≤ L
              · rw [hLen.1 L hLs] at hmem2
                exact absurd hmem2 (Finset.not_mem_empty r)
              · have := (hLen.2.2 k r).mpr ⟨L, hj, hmem2⟩
                rw [biscuit_get_length_ge] at this
                by_cases hks : s.max_length_legacy ≤ k
                · rw [if_pos hks] at this
                  exact absurd this (Finset.not_mem_empty r)
                · rw [if_neg hks] at this
                  exact this
          · rw [if_neg hjL] at hmem
            refine Or.inr ?_
            have := (hLen.2.2 k r).mpr ⟨j, hj, hmem⟩
            rw [biscuit_get_length_ge] at this
            by_cases hks : s.max_length_legacy ≤ k
            · rw [if_pos hks] at this
              exact absurd this (Finset.not_mem_empty r)
            · rw [if_neg hks] at this
              exact this
      · rw [if_neg (by simp; omega)]
        constructor
        · intro hr
          by_cases hks : s.max_length_legacy ≤ k
          · rw [hLen.2.1 k hks] at hr
            exact absurd hr (Finset.not_mem_empty r)
          · have hold := (hLen.2.2 k r).mp
              (by rw [biscuit_get_length_ge, if_neg (by omega)]; exact hr)
            obtain ⟨j, hj, hmem⟩ := hold
            refine ⟨j, hj, ?_⟩
            rw [hex_getD j]
            by_cases hjL : j = L
            · omega
            · rw [if_neg hjL]
              exact hmem
        · rintro ⟨j, hj, hmem⟩
          rw [hex_getD j, if_neg (by omega)] at hmem
          have := (hLen.2.2 k r).mpr ⟨j, hj, hmem⟩
          rw [biscuit_get_length_ge] at this
          by_cases hks : s.max_length_legacy ≤ k
          · rw [if_pos hks] at this
            exact absurd this (Finset.not_mem_empty r)
          · rw [if_neg hks] at this
            exact this
  · -- MemBound pos
    intro b z
    intro x hx
    rcases (hspec_pos b z x).mp hx with hold | ⟨rfl, _⟩
    · rw [hnum]
      exact hMem.1 b z hold
    · rw [hnum]
      exact Finset.mem_range.mpr hrid
  · intro b z
    intro x hx
    rcases (hspec_neg b z x).mp hx with hold | ⟨rfl, _⟩
    · rw [hnum]
      exact hMem.2.1 b z hold
    · rw [hnum]
      exact Finset.mem_range.mpr hrid
  · intro j
    intro x hx
    rw [hex_getD j] at hx
    rw [hnum]
    by_cases hjL : j = L
    · rw [if_pos hjL] at hx
      rcases Finset.mem_insert.mp hx with rfl | hx2
      · exact Finset.mem_range.mpr hrid
      · exact hMem.2.2.1 L hx2
    · rw [if_neg hjL] at hx
      exact hMem.2.2.1 j hx
  · intro j
    intro x hx
    rw [hspec_ge j] at hx
    rw [hnum]
    by_cases hj : j ≤ L ∧ j < t.max_length_legacy
    · rw [if_pos hj] at hx
      rcases Finset.mem_insert.mp hx with rfl | hx2
      · exact Finset.mem_range.mpr hrid
      · exact hMem.2.2.2 j hx2
    · rw [if_neg hj] at hx
      exact hMem.2.2.2 j hx
  · -- FreeBound
    intro r hr
    rw [hfree] at hr
    rw [hnum]
    exact hFree r hr

theorem removeClear_spec (s : BiscuitIndex) (rid : ℕ) :
    (∀ r, (biscuit_clear_slot (biscuit_remove_from_all_indices s rid) rid).data_cache r =
        if r = rid then none else s.data_cache r) ∧
    (∀ c q, ((biscuit_clear_slot (biscuit_remove_from_all_indices s rid) rid).pos_idx_legacy
          c q).getD ∅ = ((s.pos_idx_legacy c q).getD ∅).erase rid) ∧
    (∀ c q, ((biscuit_clear_slot (biscuit_remove_from_all_indices s rid) rid).neg_idx_legacy
          c q).getD ∅ = ((s.neg_idx_legacy c q).getD ∅).erase rid) ∧
    (∀ j, ((biscuit_clear_slot (biscuit_remove_from_all_indices s rid)
          rid).length_bitmaps_legacy j).getD ∅ =
        if j < s.max_length_legacy then ((s.length_bitmaps_legacy j).getD ∅).erase rid
        else (s.length_bitmaps_legacy j).getD ∅) ∧
    (∀ j, (biscuit_clear_slot (biscuit_remove_from_all_indices s rid)
          rid).length_ge_bitmaps_legacy j =
        if j < s.max_length_legacy then (s.length_ge_bitmaps_legacy j).erase rid
        else s.length_ge_bitmaps_legacy j) ∧
    (biscuit_clear_slot (biscuit_remove_from_all_indices s rid) rid).max_length_legacy =
      s.max_length_legacy ∧
    (biscuit_clear_slot (biscuit_remove_from_all_indices s rid) rid).num_records =
      s.num_records ∧
    (biscuit_clear_slot (biscuit_remove_from_all_indices s rid) rid).free_list =
      s.free_list := by
  refine ⟨fun r => rfl, ?_, ?_, ?_, ?_, rfl, rfl, rfl⟩
  · intro c q
    cases h : s.pos_idx_legacy c q <;>
      simp [biscuit_clear_slot, biscuit_remove_from_all_indices, h]
  · intro c q
    cases h : s.neg_idx_legacy c q <;>
      simp [biscuit_clear_slot, biscuit_remove_from_all_indices, h]
  · intro j
    by_cases hj : j < s.max_length_legacy
    · rw [if_pos hj]
      cases h : s.length_bitmaps_legacy j <;>
        simp [biscuit_clear_slot, biscuit_remove_from_all_indices, hj, h]
    · rw [if_neg hj]
      simp [biscuit_clear_slot, biscuit_remove_from_all_indices, hj]
  · intro j
    by_cases hj : j < s.max_length_legacy
    · rw [if_pos hj]
      simp [biscuit_clear_slot, biscuit_remove_from_all_indices, hj]
    · rw [if_neg hj]
      simp [biscuit_clear_slot, biscuit_remove_from_all_indices, hj]

theorem recycle_pre (s : BiscuitIndex) (rid : ℕ) (hinv : MachineInv s)
    (hrid : rid < s.num_records) :
    StorePre (biscuit_clear_slot (biscuit_remove_from_all_indices s rid) rid) rid := by
  obtain ⟨hPos, hLen, hMem, hFree⟩ := hinv
  obtain ⟨hdata, hpos, hneg, hex, hge, hmax, hnum, hfl⟩ := removeClear_spec s rid
  set t := biscuit_clear_slot (biscuit_remove_from_all_indices s rid) rid with ht
  have hexmem : ∀ j r, r ∈ (t.length_bitmaps_legacy j).getD ∅ ↔
      (r ≠ rid ∧ r ∈ (s.length_bitmaps_legacy j).getD ∅) := by
    intro j r
    rw [hex j]
    by_cases hj : j < s.max_length_legacy
    · rw [if_pos hj, Finset.mem_erase]
    · rw [if_neg hj, hLen.1 j (by omega)]
      simp
  refine ⟨⟨?_, ⟨?_, ?_, ?_⟩, ⟨?_, ?_, ?_, ?_⟩, ?_⟩, by omega, ?_, ?_, ?_, ?_⟩
  · -- PosInvariant
    intro r T hd p hp b hb
    rw [hdata r] at hd
    by_cases hr : r = rid
    · rw [if_pos hr] at hd
      exact absurd hd (by simp)
    · rw [if_neg hr] at hd
      obtain ⟨h1, h2⟩ := hPos r T hd p hp b hb
      rw [hpos, hneg]
      exact ⟨Finset.mem_erase.mpr ⟨hr, h1⟩, Finset.mem_erase.mpr ⟨hr, h2⟩⟩
  · intro j hj
    rw [hmax] at hj
    rw [hex j, if_neg (by omega)]
    exact hLen.1 j hj
  · intro j hj
    rw [hmax] at hj
    rw [hge j, if_neg (by omega)]
    exact hLen.2.1 j hj
  · intro k r
    rw [biscuit_get_length_ge, hmax]
    by_cases hk : s.max_length_legacy ≤ k
    · rw [if_pos hk]
      simp only [Finset.not_mem_empty, false_iff, not_exists, not_and]
      intro j hj
      rw [hexmem j r, hLen.1 j (by omega)]
      simp
    · rw [if_neg hk, hge k, if_pos (by omega), Finset.mem_erase]
      have hold : r ∈ s.length_ge_bitmaps_legacy k ↔
          ∃ j, k ≤ j ∧ r ∈ (s.length_bitmaps_legacy j).getD ∅ := by
        rw [← hLen.2.2 k r, biscuit_get_length_ge, if_neg hk]
      rw [hold]
      constructor
      · rintro ⟨hne, j, hj, hm⟩
        exact ⟨j, hj, (hexmem j r).mpr ⟨hne, hm⟩⟩
      · rintro ⟨j, hj, hm⟩
        obtain ⟨hne, hm2⟩ := (hexmem j r).mp hm
        exact ⟨hne, j, hj, hm2⟩
  · intro b z x hx
    rw [hpos] at hx
    rw [hnum]
    exact hMem.1 b z (Finset.mem_of_mem_erase hx)
  · intro b z x hx
    rw [hneg] at hx
    rw [hnum]
    exact hMem.2.1 b z (Finset.mem_of_mem_erase hx)
  · intro j x hx
    rw [hnum]
    exact hMem.2.2.1 j ((hexmem j x).mp hx).2
  · intro j x hx
    rw [hge j] at hx
    rw [hnum]
    by_cases hj : j < s.max_length_legacy
    · rw [if_pos hj] at hx
      exact hMem.2.2.2 j (Finset.mem_of_mem_erase hx)
    · rw [if_neg hj] at hx
      exact hMem.2.2.2 j hx
  · intro r hr
    rw [hfl] at hr
    rw [hnum]
    exact hFree r hr
  · intro c q
    rw [hpos]
    simp
  · intro c q
    rw [hneg]
    simp
  · intro j
    rw [hexmem j rid]
    simp
  · intro j
    rw [hge j]
    by_cases hj : j < s.max_length_legacy
    · rw [if_pos hj]
      simp
    · rw [if_neg hj, hLen.2.1 j (by omega)]
      simp

theorem untombstone_checked_pre (s : BiscuitIndex) (rid : ℕ) (h : StorePre s rid) :
    StorePre { biscuit_untombstone_checked s rid with
      update_count := (biscuit_untombstone_checked s rid).update_count + 1 } rid := by
  unfold biscuit_untombstone_checked biscuit_untombstone
  split_ifs <;> exact h

theorem untombstone_pre (s : BiscuitIndex) (rid : ℕ) (h : StorePre s rid) :
    StorePre (biscuit_untombstone s rid) rid := h

theorem find_existing_lt (s : BiscuitIndex) (tid rid : ℕ)
    (h : biscuit_find_existing s tid = some rid) : rid < s.num_records := by
  have hmem := List.mem_of_find?_eq_some h
  exact List.mem_range.mp hmem

theorem insert_preserves_inv (s : BiscuitIndex) (tid : ℕ) (v : Option (List ℕ))
    (hinv : MachineInv s) : MachineInv (biscuit_insert s tid v).1 := by
  match v with
  | none => exact hinv
  | some str =>
    rw [biscuit_insert]
    set s0 := if s.max_len < biscuit_utf8_char_count str then
        { s with max_len := biscuit_utf8_char_count str } else s with hs0
    have hinv0 : MachineInv s0 := by
      rw [hs0]
      split_ifs <;> exact hinv
    cases hfind : biscuit_find_existing s0 tid with
    | some rid =>
        dsimp only [hfind]
        have hrid : rid < s0.num_records := find_existing_lt s0 tid rid hfind
        obtain ⟨⟨hP, hL, hM, hF⟩, hr, ha1, ha2, ha3, ha4⟩ :=
          untombstone_checked_pre _ rid (recycle_pre s0 rid hinv0 hrid)
        exact store_preserves_inv _ rid tid str hP hL hM hF hr ha1 ha2 ha3 ha4
    | none =>
        dsimp only [hfind]
        cases hfl : s0.free_list with
        | cons rid rest =>
            dsimp only
            have hrid : rid < s0.num_records :=
              hinv0.2.2.2 rid (by rw [hfl]; exact List.mem_cons_self rid rest)
            have hinv1 : MachineInv { s0 with free_list := rest } := by
              refine ⟨hinv0.1, hinv0.2.1, hinv0.2.2.1, ?_⟩
              intro r hr
              exact hinv0.2.2.2 r (by rw [hfl]; exact List.mem_cons_of_mem rid hr)
            obtain ⟨⟨hP, hL, hM, hF⟩, hr, ha1, ha2, ha3, ha4⟩ :=
              untombstone_pre _ rid (recycle_pre { s0 with free_list := rest } rid hinv1 hrid)
            exact store_preserves_inv _ rid tid str hP hL hM hF hr ha1 ha2 ha3 ha4
        | nil =>
            dsimp only
            obtain ⟨hP0, hL0, hM0, hF0⟩ := hinv0
            refine store_preserves_inv _ s0.num_records tid str hP0 hL0 ?_ ?_
              (Nat.lt_succ_self _) ?_ ?_ ?_ ?_
            · refine ⟨?_, ?_, ?_, ?_⟩
              · intro b z x hx
                exact Finset.mem_range.mpr
                  (Nat.lt_succ_of_lt (Finset.mem_range.mp (hM0.1 b z hx)))
              · intro b z x hx
                exact Finset.mem_range.mpr
                  (Nat.lt_succ_of_lt (Finset.mem_range.mp (hM0.2.1 b z hx)))
              · intro j x hx
                exact Finset.mem_range.mpr
                  (Nat.lt_succ_of_lt (Finset.mem_range.mp (hM0.2.2.1 j hx)))
              · intro j x hx
                exact Finset.mem_range.mpr
                  (Nat.lt_succ_of_lt (Finset.mem_range.mp (hM0.2.2.2 j hx)))
            · intro r hr
              simp at hr
            · intro c q hx
              have := hM0.1 c q hx
              simp at this
            · intro c q hx
              have := hM0.2.1 c q hx
              simp at this
            · intro j hx
              have := hM0.2.2.1 j hx
              simp at this
            · intro j hx
              have := hM0.2.2.2 j hx
              simp at this

theorem mark_fold_frame (cb : ℕ → Bool) (s : BiscuitIndex) :
    ∀ (l : List ℕ), (∀ i ∈ l, i < s.num_records) →
      ∀ acc, MarkFrame s acc →
        MarkFrame s (l.foldl
          (fun acc i =>
            if (acc.1.data_cache i).isSome ∧ i ∉ acc.1.tombstones ∧ cb (acc.1.tids i) then
              ({ acc.1 with
                  tombstones := insert i acc.1.tombstones
                  tombstone_count := acc.1.tombstone_count + 1
                  free_list := i :: acc.1.free_list
                  delete_count := acc.1.delete_count + 1 },
               insert i acc.2)
            else acc)
          acc) := by
  intro l
  induction l with
  | nil => intro _ acc hacc; exact hacc
  | cons i rest ih =>
      intro hl acc hacc
      rw [List.foldl_cons]
      refine ih (fun j hj => hl j (List.mem_cons_of_mem i hj)) _ ?_
      by_cases hc : (acc.1.data_cache i).isSome ∧ i ∉ acc.1.tombstones ∧ cb (acc.1.tids i)
      · rw [if_pos hc]
        refine ⟨hacc.1, hacc.2.1, hacc.2.2.1, hacc.2.2.2.1, hacc.2.2.2.2.1,
          hacc.2.2.2.2.2.1, hacc.2.2.2.2.2.2.1, hacc.2.2.2.2.2.2.2.1, ?_⟩
        intro r hr
        rcases List.mem_cons.mp hr with rfl | hr2
        · exact Or.inr (hl r (List.mem_cons_self r rest))
        · exact hacc.2.2.2.2.2.2.2.2 r hr2
      · rw [if_neg hc]
        exact hacc

theorem mark_deleted_frame (cb : ℕ → Bool) (s : BiscuitIndex) :
    MarkFrame s (biscuit_mark_deleted cb s) := by
  unfold biscuit_mark_deleted
  refine mark_fold_frame cb s (List.range s.num_records)
    (fun i hi => List.mem_range.mp hi) (s, ∅) ?_
  exact ⟨rfl, rfl, rfl, rfl, rfl, rfl, rfl, rfl, fun r hr => Or.inl hr⟩

theorem markFrame_inv (s : BiscuitIndex) (acc : BiscuitIndex × Finset ℕ)
    (hinv : MachineInv s) (hf : MarkFrame s acc) : MachineInv acc.1 := by
  obtain ⟨hdata, hpos, hneg, hex, hge, hmax, hnum, htids, hfl⟩ := hf
  obtain ⟨hP, hL, hM, hF⟩ := hinv
  refine ⟨?_, ⟨?_, ?_, ?_⟩, ⟨?_, ?_, ?_, ?_⟩, ?_⟩
  · intro r T hd p hp b hb
    rw [hdata] at hd
    rw [hpos, hneg]
    exact hP r T hd p hp b hb
  · intro j hj
    rw [hmax] at hj
    rw [hex]
    exact hL.1 j hj
  · intro j hj
    rw [hmax] at hj
    rw [hge]
    exact hL.2.1 j hj
  · intro k r
    rw [biscuit_get_length_ge, hmax, hge, hex]
    rw [← biscuit_get_length_ge]
    exact hL.2.2 k r
  · intro b z
    rw [hpos, hnum]
    exact hM.1 b z
  · intro b z
    rw [hneg, hnum]
    exact hM.2.1 b z
  · intro j
    rw [hex, hnum]
    exact hM.2.2.1 j
  · intro j
    rw [hge, hnum]
    exact hM.2.2.2 j
  · intro r hr
    rw [hnum]
    rcases hfl r hr with h1 | h1
    · exact hF r h1
    · exact h1

theorem cleanup_spec (s : BiscuitIndex) (del : Finset ℕ) :
    (∀ r, (biscuit_bulk_cleanup s del).data_cache r =
        if r ∈ del then none else s.data_cache r) ∧
    (∀ c q, ((biscuit_bulk_cleanup s del).pos_idx_legacy c q).getD ∅ =
        (s.pos_idx_legacy c q).getD ∅ \ del) ∧
    (∀ c q, ((biscuit_bulk_cleanup s del).neg_idx_legacy c q).getD ∅ =
        (s.neg_idx_legacy c q).getD ∅ \ del) ∧
    (∀ j, ((biscuit_bulk_cleanup s del).length_bitmaps_legacy j).getD ∅ =
        if j < s.max_length_legacy then (s.length_bitmaps_legacy j).getD ∅ \ del
        else (s.length_bitmaps_legacy j).getD ∅) ∧
    (∀ j, (biscuit_bulk_cleanup s del).length_ge_bitmaps_legacy j =
        if j < s.max_length_legacy then s.length_ge_bitmaps_legacy j \ del
        else s.length_ge_bitmaps_legacy j) ∧
    (biscuit_bulk_cleanup s del).max_length_legacy = s.max_length_legacy ∧
    (biscuit_bulk_cleanup s del).num_records = s.num_records ∧
    (biscuit_bulk_cleanup s del).free_list = s.free_list := by
  refine ⟨fun r => rfl, ?_, ?_, ?_, ?_, rfl, rfl, rfl⟩
  · intro c q
    cases h : s.pos_idx_legacy c q <;> simp [biscuit_bulk_cleanup, h]
  · intro c q
    cases h : s.neg_idx_legacy c q <;> simp [biscuit_bulk_cleanup, h]
  · intro j
    by_cases hj : j < s.max_length_legacy
    · rw [if_pos hj]
      cases h : s.length_bitmaps_legacy j <;> simp [biscuit_bulk_cleanup, hj, h]
    · rw [if_neg hj]
      simp [biscuit_bulk_cleanup, hj]
  · intro j
    by_cases hj : j < s.max_length_legacy
    · rw [if_pos hj]
      simp [biscuit_bulk_cleanup, hj]
    · rw [if_neg hj]
      simp [biscuit_bulk_cleanup, hj]

theorem cleanup_inv (s : BiscuitIndex) (del : Finset ℕ) (hinv : MachineInv s) :
    MachineInv (biscuit_bulk_cleanup s del) := by
  obtain ⟨hP, hL, hM, hF⟩ := hinv
  obtain ⟨hdata, hpos, hneg, hex, hge, hmax, hnum, hfl⟩ := cleanup_spec s del
  set t := biscuit_bulk_cleanup s del with ht
  have hexmem : ∀ j r, r ∈ (t.length_bitmaps_legacy j).getD ∅ ↔
      (r ∉ del ∧ r ∈ (s.length_bitmaps_legacy j).getD ∅) := by
    intro j r
    rw [hex j]
    by_cases hj : j < s.max_length_legacy
    · rw [if_pos hj, Finset.mem_sdiff]
      tauto
    · rw [if_neg hj, hL.1 j (by omega)]
      simp
  refine ⟨?_, ⟨?_, ?_, ?_⟩, ⟨?_, ?_, ?_, ?_⟩, ?_⟩
  · intro r T hd p hp b hb
    rw [hdata r] at hd
    by_cases hr : r ∈ del
    · rw [if_pos hr] at hd
      exact absurd hd (by simp)
    · rw [if_neg hr] at hd
      obtain ⟨h1, h2⟩ := hP r T hd p hp b hb
      rw [hpos, hneg]
      exact ⟨Finset.mem_sdiff.mpr ⟨h1, hr⟩, Finset.mem_sdiff.mpr ⟨h2, hr⟩⟩
  · intro j hj
    rw [hmax] at hj
    rw [hex j, if_neg (by omega)]
    exact hL.1 j hj
  · intro j hj
    rw [hmax] at hj
    rw [hge j, if_neg (by omega)]
    exact hL.2.1 j hj
  · intro k r
    rw [biscuit_get_length_ge, hmax]
    by_cases hk : s.max_length_legacy ≤ k
    · rw [if_pos hk]
      simp only [Finset.not_mem_empty, false_iff, not_exists, not_and]
      intro j hj
      rw [hexmem j r, hL.1 j (by omega)]
      simp
    · rw [if_neg hk, hge k, if_pos (by omega), Finset.mem_sdiff]
      have hold : r ∈ s.length_ge_bitmaps_legacy k ↔
          ∃ j, k ≤ j ∧ r ∈ (s.length_bitmaps_legacy j).getD ∅ := by
        rw [← hL.2.2 k r, biscuit_get_length_ge, if_neg hk]
      rw [hold]
      constructor
      · rintro ⟨⟨j, hj, hm⟩, hne⟩
        exact ⟨j, hj, (hexmem j r).mpr ⟨hne, hm⟩⟩
      · rintro ⟨j, hj, hm⟩
        obtain ⟨hne, hm2⟩ := (hexmem j r).mp hm
        exact ⟨⟨j, hj, hm2⟩, hne⟩
  · intro b z x hx
    rw [hpos] at hx
    rw [hnum]
    exact hM.1 b z (Finset.mem_sdiff.mp hx).1
  · intro b z x hx
    rw [hneg] at hx
    rw [hnum]
    exact hM.2.1 b z (Finset.mem_sdiff.mp hx).1
  · intro j x hx
    rw [hnum]
    exact hM.2.2.1 j ((hexmem j x).mp hx).2
  · intro j x hx
    rw [hge j] at hx
    rw [hnum]
    by_cases hj : j < s.max_length_legacy
    · rw [if_pos hj] at hx
      exact hM.2.2.2 j (Finset.mem_sdiff.mp hx).1
    · rw [if_neg hj] at hx
      exact hM.2.2.2 j hx
  · intro r hr
    rw [hfl] at hr
    rw [hnum]
    exact hF r hr

theorem bulkdelete_preserves_inv (s : BiscuitIndex) (cb : ℕ → Bool)
    (hinv : MachineInv s) : MachineInv (biscuit_bulkdelete s cb) := by
  have hmid : MachineInv (if (biscuit_mark_deleted cb s).2 = ∅ then
      (biscuit_mark_deleted cb s).1
      else biscuit_bulk_cleanup (biscuit_mark_deleted cb s).1
        (biscuit_mark_deleted cb s).2) := by
    split_ifs
    · exact markFrame_inv s _ hinv (mark_deleted_frame cb s)
    · exact cleanup_inv _ _ (markFrame_inv s _ hinv (mark_deleted_frame cb s))
  rw [biscuit_bulkdelete]
  split_ifs with h1 h2 h3
  · rw [if_pos h1] at hmid
    exact hmid
  · rw [if_pos h1] at hmid
    exact hmid
  · rw [if_neg h1] at hmid
    exact hmid
  · rw [if_neg h1] at hmid
    exact hmid

theorem init_inv : MachineInv biscuit_init := by
  refine ⟨?_, ⟨?_, ?_, ?_⟩, ⟨?_, ?_, ?_, ?_⟩, ?_⟩
  · intro r T hd
    exact absurd hd (by simp [biscuit_init])
  · intro j _
    simp [biscuit_init]
  · intro j _
    simp [biscuit_init]
  · intro k r
    simp [biscuit_get_length_ge, biscuit_init]
  · intro b z
    simp [biscuit_init]
  · intro b z
    simp [biscuit_init]
  · intro j
    simp [biscuit_init]
  · intro j
    simp [biscuit_init]
  · intro r hr
    exact absurd hr (by simp [biscuit_init])

theorem machine_inv (s : BiscuitIndex) (h : Reachable s) : MachineInv s := by
  induction h with
  | init => exact init_inv
  | insert s tid v _ ih => exact insert_preserves_inv s tid v ih
  | bulkdelete s cb _ ih => exact bulkdelete_preserves_inv s cb ih

theorem wildcardScan_all (p : List ℕ) (h : ∀ c ∈ p, c = 37 ∨ c = 95) :
    wildcardScan p = (p.count 37, p.count 95, true) := by
  induction p with
  | nil => simp [wildcardScan]
  | cons c r ih =>
      have hc := h c (List.mem_cons_self c r)
      have hr := ih (fun x hx => h x (List.mem_cons_of_mem c hx))
      rcases hc with rfl | rfl
      · rw [wildcardScan, if_pos rfl, hr]
        simp [List.count_cons]
      · rw [wildcardScan, if_neg (by omega), if_pos rfl, hr]
        simp [List.count_cons]

theorem tolower_idem (p : List ℕ) :
    biscuit_str_tolower (biscuit_str_tolower p) = biscuit_str_tolower p := by
  unfold biscuit_str_tolower
  rw [List.map_map]
  apply List.map_congr_left
  intro b _
  simp only [Function.comp_apply]
  split_ifs <;> omega

theorem insert_shape (s : BiscuitIndex) (tid : ℕ) (str : List ℕ) :
    ∃ s1 rid, (biscuit_insert s tid (some str)).1 =
      biscuit_insert_store s1 rid tid str := by
  rw [biscuit_insert]
  set s0 := if s.max_len < biscuit_utf8_char_count str then
      { s with max_len := biscuit_utf8_char_count str } else s with hs0
  cases hfind : biscuit_find_existing s0 tid with
  | some rid =>
      dsimp only [hfind]
      exact ⟨_, rid, rfl⟩
  | none =>
      dsimp only [hfind]
      cases hfl : s0.free_list with
      | cons rid rest =>
          dsimp only
          exact ⟨_, rid, rfl⟩
      | nil =>
          dsimp only
          exact ⟨_, s0.num_records, rfl⟩

/-- Claim C1 (code_bug witness): the engine does not implement SQL-LIKE
semantics.  In the reachable two-record index holding "xabc" (record 0,
live) and "aaaaaa" (record 1), the query for the pattern "%ab%bc" returns
record 0 although SQL-LIKE rejects "xabc" for that pattern: the windowed
matcher drops the remaining-length constraint it computes. -/
theorem C1_like_semantics_failing_input :
    Reachable idxXabcA6 ∧
    idxXabcA6.data_cache 0 = some [120, 97, 98, 99] ∧
    (0 : ℕ) ∉ idxXabcA6.tombstones ∧
    biscuit_query_pattern idxXabcA6 [37, 97, 98, 37, 98, 99] = {0} ∧
    sqlLikeMatches [37, 97, 98, 37, 98, 99] [120, 97, 98, 99] = false :=
  ⟨Reachable.insert _ _ _ (Reachable.insert _ _ _ Reachable.init),
   by decide, by decide, by decide, by decide⟩

/-- Claim C2 (code_bug witness): the windowed matcher does not constrain a
candidate to be long enough for the remaining parts.  Starting the window at
character position 3 with the remaining part "bc", it keeps record 0 of
length 4, although the length-at-least lookup at 3 + 2 holds only record 1
and excludes record 0. -/
theorem C2_window_length_failing_input :
    biscuit_recursive_windowed_match idxXabcA6 false 6 [[98, 99]] 3 {0} = {0} ∧
    biscuit_get_length_ge idxXabcA6 (3 + biscuit_utf8_char_count [98, 99]) = {1} ∧
    (0 : ℕ) ∉ biscuit_get_length_ge idxXabcA6 (3 + biscuit_utf8_char_count [98, 99]) :=
  ⟨by decide, by decide, by decide⟩

/-- Claim C3: at every reachable quiescent state, every record slot whose
text cache holds T is, for every character position p below the character
count of T and every byte b of T's p-th character chunk, a member of the
positive positional bitmap at (b, p) and of the negative positional bitmap
at (b, p - L) where L is the character count of T. -/
theorem C3_positional_invariant (s : BiscuitIndex) (h : Reachable s)
    (rid : ℕ) (T : List ℕ) (hd : s.data_cache rid = some T)
    (p : ℕ) (hp : p < biscuit_utf8_char_count T)
    (b : ℕ) (hb : b ∈ (utf8Chunks T).getD p []) :
    rid ∈ (s.pos_idx_legacy b (p : ℤ)).getD ∅ ∧
    rid ∈ (s.neg_idx_legacy b
        ((p : ℤ) - (biscuit_utf8_char_count T : ℤ))).getD ∅ :=
  (machine_inv s h).1 rid T hd p hp b hb

theorem C3_witness :
    idxAbc.data_cache 0 = some [97, 98, 99] ∧
    0 ∈ (idxAbc.pos_idx_legacy 97 ((0 : ℕ) : ℤ)).getD ∅ ∧
    0 ∈ (idxAbc.neg_idx_legacy 97 (((0 : ℕ) : ℤ) -
        (biscuit_utf8_char_count [97, 98, 99] : ℤ))).getD ∅ := by
  have hd : idxAbc.data_cache 0 = some [97, 98, 99] := by decide
  have h := C3_positional_invariant idxAbc
    (Reachable.insert biscuit_init 5 (some [97, 98, 99]) Reachable.init)
    0 [97, 98, 99] hd 0 (by decide) 97 (by decide)
  exact ⟨hd, h.1, h.2⟩

/-- Claim C4: at every reachable state, membership of the length-at-least
lookup at k is equivalent to membership of some exact-length bitmap at a
length at least k; a lookup at or beyond the allocated bound is empty; and
inserting a value stores its record id in the exact-length bitmap at its
character length L and in every length-at-least bitmap at indices 0..L. -/
theorem C4_length_ge_invariant (s : BiscuitIndex) (h : Reachable s) :
    (∀ k r, r ∈ biscuit_get_length_ge s k ↔
        ∃ j, k ≤ j ∧ r ∈ (s.length_bitmaps_legacy j).getD ∅) ∧
    (∀ k, s.max_length_legacy ≤ k → biscuit_get_length_ge s k = ∅) ∧
    (∀ tid str, ∃ rid,
        ((biscuit_insert s tid (some str)).1).data_cache rid = some str ∧
        rid ∈ (((biscuit_insert s tid (some str)).1).length_bitmaps_legacy
            (biscuit_utf8_char_count str)).getD ∅ ∧
        ∀ i, i ≤ biscuit_utf8_char_count str →
          rid ∈ ((biscuit_insert s tid (some str)).1).length_ge_bitmaps_legacy i) := by
  refine ⟨(machine_inv s h).2.1.2.2, ?_, ?_⟩
  · intro k hk
    rw [biscuit_get_length_ge, if_pos hk]
  · intro tid str
    obtain ⟨s1, rid, heq⟩ := insert_shape s tid str
    rw [heq]
    obtain ⟨hdata, hpos, hneg, hex, hge, ⟨hmax1, hmax2⟩, hnum, hfree, htomb⟩ :=
      insertStore_spec s1 rid tid str
    refine ⟨rid, ?_, ?_, ?_⟩
    · rw [hdata rid, if_pos rfl]
    · rw [hex, if_pos rfl]
      simp
    · intro i hi
      rw [hge i, if_pos ⟨hi, by omega⟩]
      exact Finset.mem_insert_self _ _

theorem C4_witness :
    (0 ∈ biscuit_get_length_ge idxAbc 2 ↔
      ∃ j, 2 ≤ j ∧ 0 ∈ (idxAbc.length_bitmaps_legacy j).getD ∅) ∧
    biscuit_get_length_ge idxAbc 32 = ∅ := by
  have h := C4_length_ge_invariant idxAbc
    (Reachable.insert biscuit_init 5 (some [97, 98, 99]) Reachable.init)
  exact ⟨h.1 2 0, h.2.1 32 (by decide)⟩

/-- Claim C5 (code_bug witness): the free list is not always a subset of the
tombstone set.  After inserting "a" under tid 1, bulk-deleting everything,
and inserting "b" under tid 1 again, the update path recycles the
tombstoned slot without popping it from the free list: slot 0 is live again
(its data cache holds "b", the tombstone set is empty) yet still sits on
the free list. -/
theorem C5_freelist_tombstone_failing_input :
    Reachable idxAReinserted ∧
    idxAReinserted.free_list = [0] ∧
    idxAReinserted.tombstones = ∅ ∧
    idxAReinserted.data_cache 0 = some [98] ∧
    ¬ (∀ r ∈ idxAReinserted.free_list, r ∈ idxAReinserted.tombstones) :=
  ⟨Reachable.insert _ _ _ (Reachable.bulkdelete _ _ (Reachable.insert _ _ _ Reachable.init)),
   by decide, by decide, by decide, by decide⟩

/-- Claim C6 (counterexample): ILIKE is not the LIKE control flow with every
lookup redirected to the lowercase-folded shadow index.  On the reachable
index holding "abc", the ILIKE query "ab" returns {0} while the folded-view
reading returns the empty set: the exact branch consults the case-sensitive
exact-length bitmaps and, when the consulted slot is missing below the
bound, skips the exact-length filter instead of returning empty. -/
theorem C6_counterexample :
    Reachable idxAbc ∧
    biscuit_query_pattern_ilike idxAbc [97, 98] = {0} ∧
    biscuit_query_pattern_ilike_spec idxAbc [97, 98] = ∅ ∧
    biscuit_query_pattern_ilike idxAbc [97, 98] ≠
      biscuit_query_pattern_ilike_spec idxAbc [97, 98] :=
  ⟨Reachable.insert _ _ _ Reachable.init, by decide, by decide, by decide⟩

/-- Claim C6 (amended): the ILIKE entry lowercase-folds the pattern before
parsing (folding is idempotent, so querying the pre-folded pattern is
identical); the percent-wildcard fast path consults the folded
length-at-least bitmaps; but the underscore-only fast path consults the
case-sensitive exact-length bitmaps, not the folded shadow index. -/
theorem C6_ilike_folded (s : BiscuitIndex) (p : List ℕ) :
    biscuit_query_pattern_ilike s p =
      biscuit_query_pattern_ilike s (biscuit_str_tolower p) ∧
    ((∀ c ∈ biscuit_str_tolower p, c = 37 ∨ c = 95) →
      37 ∈ biscuit_str_tolower p → biscuit_str_tolower p ≠ [37] →
      biscuit_query_pattern_ilike s p =
        biscuit_get_length_ge_lower s ((biscuit_str_tolower p).count 95)) ∧
    (biscuit_str_tolower p ≠ [] → (∀ c ∈ biscuit_str_tolower p, c = 95) →
      biscuit_query_pattern_ilike s p =
        if (biscuit_str_tolower p).count 95 < s.max_length_legacy ∧
            (s.length_bitmaps_legacy ((biscuit_str_tolower p).count 95)).isSome then
          (s.length_bitmaps_legacy ((biscuit_str_tolower p).count 95)).getD ∅
        else ∅) := by
  refine ⟨?_, ?_, ?_⟩
  · rw [biscuit_query_pattern_ilike, biscuit_query_pattern_ilike, tolower_idem]
  · intro hall h37 hne
    have hlen : ¬(biscuit_str_tolower p).length = 0 := by
      rw [List.length_eq_zero]
      rintro h
      rw [h] at h37
      simp at h37
    rw [biscuit_query_pattern_ilike, if_neg hlen, if_neg hne,
      wildcardScan_all _ hall]
    dsimp only
    rw [if_pos rfl, if_pos (List.count_pos_iff.mpr h37)]
  · intro hne hall
    have hlen : ¬(biscuit_str_tolower p).length = 0 := by
      rw [List.length_eq_zero]
      exact hne
    have hne37 : biscuit_str_tolower p ≠ [37] := by
      intro h
      have := hall 37 (by rw [h]; simp)
      omega
    have hcnt : (biscuit_str_tolower p).count 37 = 0 := by
      rw [List.count_eq_zero]
      intro hmem
      have := hall 37 hmem
      omega
    rw [biscuit_query_pattern_ilike, if_neg hlen, if_neg hne37,
      wildcardScan_all _ (fun c hc => Or.inr (hall c hc))]
    dsimp only
    rw [if_pos rfl, hcnt, if_neg (by omega)]

theorem C6_amended_witness :
    biscuit_query_pattern_ilike idxAbc [97, 37] =
      biscuit_query_pattern_ilike idxAbc (biscuit_str_tolower [97, 37]) ∧
    biscuit_query_pattern_ilike idxAbc [95, 37] =
      biscuit_get_length_ge_lower idxAbc 1 := by
  refine ⟨(C6_ilike_folded idxAbc [97, 37]).1, ?_⟩
  have h := (C6_ilike_folded idxAbc [95, 37]).2.1 (by decide) (by decide) (by decide)
  have h2 : (biscuit_str_tolower [95, 37]).count 95 = 1 := by decide
  rw [h2] at h
  exact h

/-- Claim C7: the fast paths of the LIKE matcher return, in dispatch order:
for the empty pattern, the exact-length-0 bitmap; for the pattern "%", all
non-tombstoned records; for a pattern of percents and underscores holding
at least one percent (other than "%" itself), the length-at-least lookup at
the underscore count; and for an underscore-only pattern, the exact-length
bitmap at the underscore count. -/
theorem C7_fast_paths (s : BiscuitIndex) (h : Reachable s) (p : List ℕ) :
    (p = [] → biscuit_query_pattern s p = (s.length_bitmaps_legacy 0).getD ∅) ∧
    (p = [37] → biscuit_query_pattern s p = allNonTombstoned s) ∧
    ((∀ c ∈ p, c = 37 ∨ c = 95) → 37 ∈ p → p ≠ [37] →
      biscuit_query_pattern s p = biscuit_get_length_ge s (p.count 95)) ∧
    (p ≠ [] → (∀ c ∈ p, c = 95) →
      biscuit_query_pattern s p =
        (s.length_bitmaps_legacy (p.count 95)).getD ∅) := by
  have hinv := machine_inv s h
  refine ⟨?_, ?_, ?_, ?_⟩
  · rintro rfl
    rw [biscuit_query_pattern, if_pos (by simp)]
    split_ifs with hg
    · rfl
    · rcases not_and_or.mp hg with h0 | h1
      · push_neg at h0
        rw [hinv.2.1.1 0 (by omega)]
      · cases hs : s.length_bitmaps_legacy 0
        · rfl
        · rw [hs] at h1
          simp at h1
  · rintro rfl
    rw [biscuit_query_pattern, if_neg (by simp), if_pos rfl]
  · intro hall h37 hne
    have hlen : ¬p.length = 0 := by
      rw [List.length_eq_zero]
      rintro rfl
      simp at h37
    rw [biscuit_query_pattern, if_neg hlen, if_neg hne]
    rw [wildcardScan_all p hall]
    rw [if_pos rfl, if_pos (List.count_pos_iff.mpr h37)]
  · intro hne hall
    have hlen : ¬p.length = 0 := by
      rw [List.length_eq_zero]
      exact hne
    have hne37 : p ≠ [37] := by
      rintro rfl
      have := hall 37 (by simp)
      omega
    rw [biscuit_query_pattern, if_neg hlen, if_neg hne37]
    rw [wildcardScan_all p (fun c hc => Or.inr (hall c hc))]
    have hcnt : p.count 37 = 0 := by
      rw [List.count_eq_zero]
      intro hmem
      have := hall 37 hmem
      omega
    dsimp only
    rw [if_pos rfl, hcnt, if_neg (by omega)]
    split_ifs with hg
    · rfl
    · rcases not_and_or.mp hg with h0 | h1
      · push_neg at h0
        rw [hinv.2.1.1 (p.count 95) (by omega)]
      · cases hs : s.length_bitmaps_legacy (p.count 95)
        · rfl
        · rw [hs] at h1
          simp at h1

theorem C7_witness :
    biscuit_query_pattern idxAbc [37] = allNonTombstoned idxAbc ∧
    biscuit_query_pattern idxAbc [95, 37] = biscuit_get_length_ge idxAbc 1 ∧
    biscuit_query_pattern idxAbc [95, 95] =
      (idxAbc.length_bitmaps_legacy 2).getD ∅ := by
  have h := C7_fast_paths idxAbc
    (Reachable.insert biscuit_init 5 (some [97, 98, 99]) Reachable.init)
  refine ⟨(h [37]).2.1 rfl, ?_, ?_⟩
  · have := (h [95, 37]).2.2.1 (by decide) (by decide) (by decide)
    simpa using this
  · have := (h [95, 95]).2.2.2 (by decide) (by decide)
    simpa using this

/-- The restricted NOT-scan identity: whenever the tombstone bitmap is
nonempty only when the tombstone counter is positive, the first-predicate
pipeline with the negation flag equals all non-tombstoned records minus the
query result, for LIKE and ILIKE alike, and intersecting any candidate set
of live records with the NOT-transform agrees with the set difference.
The hypothesis is genuine: the index can reach a state violating it where
the identity fails, exhibited by the C9 failing-input theorem below. -/
theorem notLike_complement_of_consistent_count :
    ∀ (s : BiscuitIndex) (p : List ℕ),
      (s.tombstones ≠ ∅ → (0 : ℤ) < s.tombstone_count) →
      (biscuit_first_predicate s true (biscuit_query_pattern s p) =
          allNonTombstoned s \ biscuit_query_pattern s p ∧
       biscuit_first_predicate s true (biscuit_query_pattern_ilike s p) =
          allNonTombstoned s \ biscuit_query_pattern_ilike s p ∧
       (∀ C : Finset ℕ, C ⊆ allNonTombstoned s →
        C ∩ biscuit_not_transform s.num_records (biscuit_query_pattern s p) =
          C ∩ (allNonTombstoned s \ biscuit_query_pattern s p))) := by
  intro s p h
  have key : ∀ q : Finset ℕ, biscuit_first_predicate s true q = allNonTombstoned s \ q := by
    intro q
    by_cases h0 : (0 : ℤ) < s.tombstone_count
    · ext x
      simp only [biscuit_first_predicate, biscuit_not_transform, allNonTombstoned,
        if_pos h0, if_true, Finset.mem_sdiff, Finset.mem_range]
      tauto
    · have hT : s.tombstones = ∅ := by
        by_contra hne
        exact h0 (h hne)
      simp [biscuit_first_predicate, biscuit_not_transform, allNonTombstoned, h0, hT]
  have key2 : ∀ C : Finset ℕ, C ⊆ allNonTombstoned s → ∀ q : Finset ℕ,
      C ∩ biscuit_not_transform s.num_records q = C ∩ (allNonTombstoned s \ q) := by
    intro C hC q
    ext x
    simp only [Finset.mem_inter, Finset.mem_sdiff, Finset.mem_range,
      biscuit_not_transform, allNonTombstoned]
    constructor
    · rintro ⟨hx, hr, hq⟩
      have hx2 := hC hx
      simp only [allNonTombstoned, Finset.mem_sdiff, Finset.mem_range] at hx2
      exact ⟨hx, ⟨⟨hr, hx2.2⟩, hq⟩⟩
    · rintro ⟨hx, ⟨⟨hr, _⟩, hq⟩⟩
      exact ⟨hx, hr, hq⟩
  exact ⟨key _, key _, fun C hC => key2 C hC _⟩

theorem notLike_complement_example :
    biscuit_first_predicate idxAbc true (biscuit_query_pattern idxAbc [97]) =
      allNonTombstoned idxAbc \ biscuit_query_pattern idxAbc [97] :=
  (notLike_complement_of_consistent_count idxAbc [97] (by decide)).1

/-- Claim C9 (code_bug witness): a NOT LIKE scan is not always the live
records minus the positive result.  The duplicate free-list entries left by
the update path, together with the unconditional tombstone-counter decrement
of the free-slot reuse path, reach a quiescent state whose tombstone bitmap
is nonempty while the counter is zero; there the rescan skips the tombstone
subtraction, so the NOT pipeline for the pattern "z" returns the tombstoned
record 0, while all live records minus the LIKE result is empty. -/
theorem C9_not_like_failing_input :
    Reachable idxDesync ∧
    idxDesync.tombstones = {0} ∧
    idxDesync.tombstone_count = 0 ∧
    biscuit_first_predicate idxDesync true (biscuit_query_pattern idxDesync [122]) =
      {0} ∧
    allNonTombstoned idxDesync \ biscuit_query_pattern idxDesync [122] = ∅ :=
  ⟨Reachable.bulkdelete _ _ (Reachable.insert _ _ _ (Reachable.insert _ _ _
      (Reachable.bulkdelete _ _ (Reachable.insert _ _ _ (Reachable.bulkdelete _ _
        (Reachable.insert _ _ _ Reachable.init)))))),
   by decide, by decide, by decide, by decide⟩

/-- Claim C10: inserting a NULL value is a no-op that reports success: the
single-column path returns the state unchanged with true, and the
multi-column path does the same whenever any column value is NULL. -/
theorem C10_null_insert_noop :
    (∀ (s : BiscuitIndex) (tid : ℕ), biscuit_insert s tid none = (s, true)) ∧
    (∀ (s : BiscuitMultiIndex) (tid : ℕ) (values : List (Option (List ℕ))),
      (∃ v ∈ values, v = none) → biscuit_insert_multicolumn s tid values = (s, true)) := by
  refine ⟨fun s tid => rfl, fun s tid values hv => ?_⟩
  obtain ⟨v, hvmem, hvnone⟩ := hv
  unfold biscuit_insert_multicolumn
  by_cases h1 : (values.headD none).isNone = true
  · rw [if_pos h1]
  · have h2 : values.any (fun v => v.isNone) = true :=
      List.any_eq_true.mpr ⟨v, hvmem, by simp [hvnone]⟩
    rw [if_neg h1, if_pos h2]

theorem C10_witness :
    biscuit_insert biscuit_init 3 none = (biscuit_init, true) ∧
    biscuit_insert_multicolumn biscuit_multi_init 3 [some [97], none] =
      (biscuit_multi_init, true) :=
  ⟨C10_null_insert_noop.1 biscuit_init 3,
   C10_null_insert_noop.2 biscuit_multi_init 3 [some [97], none]
     ⟨none, by simp, rfl⟩⟩

end Biscuit
